import Mathlib

/-!
Verification of the GTM container inspector (domain-crawler repository).

This file gives a shallow embedding of the container reverse-parser in
`src/GtmInspector.js` (balanced-object extraction, the six locator
strategies, the container-model decoder, the vendor signature scanner)
and of the loose-syntax evaluator `parseJavaScriptObject` in `Parser.js`,
and proves the testable properties stated about them.

Modelling conventions:
* JavaScript strings are `List Char`; machine text offsets are `Nat`.
* JavaScript values are the inductive `JsValue` (undefined, null,
  booleans, numbers, strings, arrays, objects).  Numbers are modelled as
  integers (`Int`); the container payloads the decoder consumes use only
  integral numbers, so no floating point behaviour is relied on.
* JavaScript exceptions (property access on null/undefined, calling a
  string method on a non-string) are modelled with `Except Unit`.
* `eval` of an extracted object-literal candidate is modelled by a
  permissive object-literal evaluator `jsEval` (JSON plus single-quoted
  strings, bare identifier keys, trailing commas and comments); it agrees
  with JavaScript `eval` on the JSON-shaped inputs used in the theorems
  below and is exact on every concrete input evaluated here.
-/

set_option maxRecDepth 40000

namespace Gtm

/-! ## The JavaScript value model -/

mutual
inductive JsValue where
  | undefined
  | null
  | bool (b : Bool)
  | num (n : Int)
  | str (s : List Char)
  | arr (elems : JsArr)
  | obj (fields : JsObj)
  deriving DecidableEq
inductive JsArr where
  | nil
  | cons (head : JsValue) (tail : JsArr)
  deriving DecidableEq
inductive JsObj where
  | nil
  | cons (key : List Char) (val : JsValue) (tail : JsObj)
  deriving DecidableEq
end

def JsArr.toList : JsArr → List JsValue
  | .nil => []
  | .cons x tl => x :: tl.toList

def JsArr.ofList : List JsValue → JsArr
  | [] => .nil
  | x :: tl => .cons x (JsArr.ofList tl)

def JsObj.toList : JsObj → List (List Char × JsValue)
  | .nil => []
  | .cons k v tl => (k, v) :: tl.toList

/-- Association lookup on object fields (first match wins; the JSON and
object-literal evaluators below keep at most one binding per key, the
later binding replacing the earlier, matching JavaScript object
semantics for duplicate keys). -/
def JsObj.find : JsObj → List Char → Option JsValue
  | .nil, _ => none
  | .cons k v tl, key => if k = key then some v else tl.find key

/-- Replace the binding for `key` if present, else append it (JavaScript
object-literal construction order with duplicate keys). -/
def JsObj.setKey : JsObj → List Char → JsValue → JsObj
  | .nil, key, v => .cons key v .nil
  | .cons k w tl, key, v => if k = key then .cons k v tl else .cons k w (tl.setKey key v)

namespace JsValue

/-- JavaScript truthiness: undefined, null, false, 0 and "" are falsy. -/
def truthy : JsValue → Bool
  | .undefined => false
  | .null => false
  | .bool b => b
  | .num n => !(n = 0)
  | .str s => !s.isEmpty
  | .arr _ => true
  | .obj _ => true

def isNullish : JsValue → Bool
  | .undefined => true
  | .null => true
  | _ => false

def isArray : JsValue → Bool
  | .arr _ => true
  | _ => false

/-- Strict equality against a string literal (`x === 'lit'`). -/
def eqStr (v : JsValue) (s : List Char) : Bool :=
  match v with
  | .str t => t = s
  | _ => false

/-- Strict equality against a number literal (`x === n`). -/
def eqNum (v : JsValue) (n : Int) : Bool :=
  match v with
  | .num m => m = n
  | _ => false

/-- Strict equality against `true` (`x === true`). -/
def eqTrue (v : JsValue) : Bool :=
  match v with
  | .bool b => b
  | _ => false

/-- The test `typeof x === 'string'`. -/
def typeofString : JsValue → Bool
  | .str _ => true
  | _ => false

/-- The test `typeof x === 'number'`. -/
def typeofNumber : JsValue → Bool
  | .num _ => true
  | _ => false

end JsValue

/-! ## String conversion (the JavaScript `String(...)` coercion) -/

/-- The character for a decimal digit. -/
def digitChar (n : Nat) : Char :=
  if n = 0 then '0' else if n = 1 then '1' else if n = 2 then '2'
  else if n = 3 then '3' else if n = 4 then '4' else if n = 5 then '5'
  else if n = 6 then '6' else if n = 7 then '7' else if n = 8 then '8' else '9'

/-- Decimal digits of a natural number, fuel-based so that it reduces in
the kernel. -/
def natDigitsAux : Nat → Nat → List Char
  | 0, _ => []
  | fuel + 1, n =>
    if n < 10 then [digitChar n]
    else natDigitsAux fuel (n / 10) ++ [digitChar (n % 10)]

def natDigits (n : Nat) : List Char := natDigitsAux (n + 1) n

/-- Decimal rendering of an integer. -/
def renderInt (n : Int) : List Char :=
  if n < 0 then '-' :: natDigits (-n).toNat else natDigits n.toNat

mutual
/-- JavaScript `String(v)` coercion (objects stringify to
"[object Object]", arrays to their comma-joined elements). -/
def jsToString : JsValue → List Char
  | .undefined => "undefined".toList
  | .null => "null".toList
  | .bool true => "true".toList
  | .bool false => "false".toList
  | .num n => renderInt n
  | .str s => s
  | .arr xs => jsArrJoinComma xs
  | .obj _ => "[object Object]".toList
/-- JavaScript `Array.prototype.toString` (join with ","); null and
undefined elements become the empty string. -/
def jsArrJoinComma : JsArr → List Char
  | .nil => []
  | .cons x .nil => if x.isNullish then [] else jsToString x
  | .cons x tl =>
    (if x.isNullish then [] else jsToString x) ++ ',' :: jsArrJoinComma tl
end

/-- JavaScript `Array.prototype.join(sep)`: null/undefined elements
become the empty string, other elements are `String(...)`-coerced. -/
def jsJoin (sep : List Char) (xs : List JsValue) : List Char :=
  List.intercalate sep (xs.map fun v => if v.isNullish then ([] : List Char) else jsToString v)

namespace JsValue

/-- Property read `v.key` on a value already known not to be
null/undefined (in JavaScript those two throw; call sites guard with
`fieldE`).  Field lookup on non-objects yields undefined, except the
`length` property of arrays and strings. -/
def getField (v : JsValue) (key : List Char) : JsValue :=
  match v with
  | .obj fs => (fs.find key).getD .undefined
  | .arr xs => if key = "length".toList then .num xs.toList.length else .undefined
  | .str s => if key = "length".toList then .num s.length else .undefined
  | _ => .undefined

/-- Property read `v[k]` with a computed key, as used for
`predicates[idx]` and `entities[idx]`: numeric indexing on arrays and
strings (including canonical numeric string keys), string-keyed lookup
on objects, undefined otherwise. -/
def idx (v : JsValue) (key : JsValue) : JsValue :=
  match v, key with
  | .arr xs, .num i =>
    if 0 ≤ i ∧ i < (xs.toList.length : Int) then xs.toList.getD i.toNat .undefined else .undefined
  | .arr xs, .str s =>
    if s = "length".toList then .num xs.toList.length
    else
      match (List.range xs.toList.length).find? (fun n => natDigits n = s) with
      | some n => xs.toList.getD n .undefined
      | none => .undefined
  | .str s, .num i =>
    if 0 ≤ i ∧ i < (s.length : Int) then .str [s.getD i.toNat ' '] else .undefined
  | .obj _, k => v.getField (jsToString k)
  | _, _ => .undefined

/-- The JavaScript `a || b` operator. -/
def or (a b : JsValue) : JsValue := if a.truthy then a else b

end JsValue

/-- Guarded property access `v.key`: throws (models TypeError) when `v`
is null or undefined. -/
def fieldE (v : JsValue) (key : List Char) : Except Unit JsValue :=
  if v.isNullish then .error () else .ok (v.getField key)

/-- The `key in v` operator: key membership test; throws on primitive
bases. -/
def jsInE (key : List Char) (v : JsValue) : Except Unit Bool :=
  match v with
  | .obj fs => .ok (fs.find key).isSome
  | .arr xs => .ok ((List.range xs.toList.length).any fun n => natDigits n = key)
  | _ => .error ()

/-- Substring test: does `pat` occur contiguously inside `s`? -/
def listHasInfix (s pat : List Char) : Bool :=
  match s with
  | [] => pat.isEmpty
  | _ :: tl => pat.isPrefixOf s || listHasInfix tl pat

/-- The call `v.includes(lit)` with a string literal: substring test on
strings, element test on arrays, throws otherwise. -/
def jsIncludesE (v : JsValue) (lit : List Char) : Except Unit Bool :=
  match v with
  | .str s => .ok (listHasInfix s lit)
  | .arr xs => .ok (xs.toList.any fun x => x = .str lit)
  | _ => .error ()

/-- The call `v.startsWith(lit)` with a string literal: throws on
non-strings. -/
def jsStartsWithE (v : JsValue) (lit : List Char) : Except Unit Bool :=
  match v with
  | .str s => .ok (lit.isPrefixOf s : Bool)
  | _ => .error ()

/-! ## The balanced object extractor (`extractCompleteObject_`)

Source: `src/GtmInspector.js` lines 440-480.  A single left-to-right
scan over the characters from `startIdx`, bounded by a 5,000,000
character window, maintaining a brace-depth counter (an integer: in the
source it is a JavaScript number and may go negative), an in-string
flag toggled by unescaped double quotes, and a backslash-escape flag.
The loop breaks when a closing brace returns the depth to zero;
otherwise the function returns null. -/

/-- Scanner state: (brace depth, inside-string flag, escape-next flag). -/
abbrev ScanSt := Int × Bool × Bool

/-- One character step of the scanner (the loop body of
`extractCompleteObject_`, minus the break). -/
def stepSt : ScanSt → Char → ScanSt
  | (b, inS, esc), c =>
    if esc then (b, inS, false)
    else if c = '\\' then (b, inS, true)
    else if c = '"' then (b, !inS, esc)
    else if inS then (b, inS, esc)
    else if c = '\x7b' then (b + 1, inS, esc)
    else if c = '\x7d' then (b - 1, inS, esc)
    else (b, inS, esc)

/-- Whether processing `c` in state `st` triggers the loop's break
(`braceCount` returning to zero on a closing brace). -/
def breaksAt : ScanSt → Char → Bool
  | (b, inS, esc), c => !esc && !inS && c = '\x7d' && b = 1

/-- The scan loop: processes the remaining characters, returning the
end index (one past the closing brace) at the first break, or none if
the window is exhausted. -/
def ecoLoop : List Char → Nat → ScanSt → Option Nat
  | [], _, _ => none
  | c :: cs, i, st => if breaksAt st c then some (i + 1) else ecoLoop cs (i + 1) (stepSt st c)

/-- `extractCompleteObject_(str, startIdx)`: the loop runs over the
characters from `startIdx`, stopping at the string end or after
5,000,000 characters; on a break at end index `e` it returns
`str.substring(startIdx, e)`, else null. -/
def extractCompleteObject_ (str : List Char) (startIdx : Nat) : Option (List Char) :=
  match ecoLoop ((str.drop startIdx).take 5000000) startIdx (0, false, false) with
  | some endIdx => some ((str.drop startIdx).take (endIdx - startIdx))
  | none => none

/-- Final scanner state after processing a block of characters. -/
def scanFinal (cs : List Char) (st : ScanSt) : ScanSt := cs.foldl stepSt st

/-- Whether a block of characters is processed without ever triggering
the break. -/
def scanSafe : List Char → ScanSt → Bool
  | [], _ => true
  | c :: cs, st => !breaksAt st c && scanSafe cs (stepSt st c)

/-! ## A canonical rendering of JSON values

The balanced-extraction claim quantifies over well-formed JSON objects.
`render` is a canonical JSON rendering of a `JsValue` (double-quoted
strings with `"` and `\` escaped, so strings may contain braces and
escaped quotes); "a well-formed JSON object begins exactly at
`startIndex`" is formalised as: the text is
`p ++ render (JsValue.obj fs) ++ t` with `startIndex = p.length`.
`undefined` (not a JSON value) is rendered as `null` so every rendering is
valid JSON text; the extracted substring being `render o` for a JSON
value `o` witnesses that it re-parses as JSON. -/

def escChar (c : Char) : List Char :=
  if c = '"' ∨ c = '\\' then ['\\', c] else [c]

def renderStr (s : List Char) : List Char :=
  '"' :: (s.flatMap escChar ++ ['"'])

mutual
def render : JsValue → List Char
  | .undefined => "null".toList
  | .null => "null".toList
  | .bool true => "true".toList
  | .bool false => "false".toList
  | .num n => renderInt n
  | .str s => renderStr s
  | .arr xs => '[' :: (renderArr xs ++ [']'])
  | .obj fs => '\x7b' :: (renderObj fs ++ ['\x7d'])
def renderArr : JsArr → List Char
  | .nil => []
  | .cons x .nil => render x
  | .cons x (.cons y tl) => render x ++ (',' :: renderArr (.cons y tl))
def renderObj : JsObj → List Char
  | .nil => []
  | .cons k v .nil => renderStr k ++ (':' :: render v)
  | .cons k v (.cons k2 v2 tl) =>
    renderStr k ++ (':' :: (render v ++ (',' :: renderObj (.cons k2 v2 tl))))
end

/-! Scanner facts about rendered JSON: every rendered value is processed
by the `extractCompleteObject_` scanner without a break and without a
net state change, as long as the surrounding brace depth is at least
one. -/

/-- Characters the scanner treats as inert outside strings. -/
def neutralChar (c : Char) : Bool :=
  !(c == '\\' || c == '"' || c == '\x7b' || c == '\x7d')

/-! ## JSON parsing and loose expression evaluation

`jsonParse` models `JSON.parse`; `jsEval` models
`eval('(' + text + ')')` restricted to data-literal expressions (JSON
plus single-quoted strings, bare identifier keys, trailing commas and
JavaScript comments) — the only form of `eval` result the inspector
consumes.  Restrictions of the model, documented here once: JSON numbers
are restricted to (optionally signed) integer literals, and raw control
characters inside string literals are not rejected. -/

def jsonWsChar (c : Char) : Bool := c == ' ' || c == '\t' || c == '\n' || c == '\r'

/-- Hexadecimal digit value. -/
def hexVal (c : Char) : Option Nat :=
  if '0' ≤ c ∧ c ≤ '9' then some (c.toNat - '0'.toNat)
  else if 'a' ≤ c ∧ c ≤ 'f' then some (c.toNat - 'a'.toNat + 10)
  else if 'A' ≤ c ∧ c ≤ 'F' then some (c.toNat - 'A'.toNat + 10)
  else none

/-- Drop one line-comment body (to the end of the line). -/
def dropLine (s : List Char) : List Char :=
  s.dropWhile fun c => !(c == '\n' || c == '\r')

/-- Drop through the first `*/`; none when unterminated. -/
def dropBlockEnd : List Char → Option (List Char)
  | '*' :: '/' :: r => some r
  | _ :: r => dropBlockEnd r
  | [] => none

/-- Skip whitespace and comments (loose mode). -/
def dropWsLoose : Nat → List Char → List Char
  | 0, s => s
  | fuel + 1, s =>
    match s with
    | [] => []
    | '/' :: '/' :: r => dropWsLoose fuel (dropLine r)
    | '/' :: '*' :: r =>
      match dropBlockEnd r with
      | some r2 => dropWsLoose fuel r2
      | none => s
    | c :: rest => if jsonWsChar c then dropWsLoose fuel rest else s

/-- Skip whitespace (strict mode) or whitespace and comments (loose). -/
def skipWs (strict : Bool) (s : List Char) : List Char :=
  if strict then s.dropWhile jsonWsChar else dropWsLoose (s.length + 1) s

/-- Parse a string literal body after the opening quote, handling
backslash escapes; in loose mode unknown escapes map to the escaped
character itself, in strict mode they are errors. -/
def jpStringBody (strict : Bool) (quote : Char) : List Char → Except Unit (List Char × List Char)
  | [] => .error ()
  | c :: rest =>
    if c = quote then .ok ([], rest)
    else if c = '\\' then
      match rest with
      | 'u' :: h1 :: h2 :: h3 :: h4 :: r3 =>
        match hexVal h1, hexVal h2, hexVal h3, hexVal h4 with
        | some a, some b, some d, some e =>
          let code := ((a * 16 + b) * 16 + d) * 16 + e
          (fun p => (Char.ofNat code :: p.1, p.2)) <$> jpStringBody strict quote r3
        | _, _, _, _ => .error ()
      | e :: r2 =>
        let mapped : Option Char :=
          if e = '"' ∨ e = '\'' ∨ e = '\\' ∨ e = '/' then some e
          else if e = 'b' then some '\x08'
          else if e = 'f' then some '\x0c'
          else if e = 'n' then some '\n'
          else if e = 'r' then some '\r'
          else if e = 't' then some '\t'
          else if strict then none else some e
        match mapped with
        | some m => (fun p => (m :: p.1, p.2)) <$> jpStringBody strict quote r2
        | none => .error ()
      | [] => .error ()
    else (fun p => (c :: p.1, p.2)) <$> jpStringBody strict quote rest

/-- Parse an integer literal (optional minus, decimal digits; strict
mode rejects leading zeros). -/
def jpNumber (strict : Bool) (s : List Char) : Except Unit (JsValue × List Char) :=
  let (neg, s1) := match s with
    | '-' :: r => (true, r)
    | _ => (false, s)
  let ds := s1.takeWhile Char.isDigit
  let s2 := s1.dropWhile Char.isDigit
  if ds.isEmpty then .error ()
  else if strict ∧ 1 < ds.length ∧ ds.getD 0 '0' = '0' then .error ()
  else
    match s2 with
    | '.' :: _ => .error ()
    | 'e' :: _ => .error ()
    | 'E' :: _ => .error ()
    | _ =>
      let n : Int := ds.foldl (fun a c => a * 10 + ((c.toNat : Int) - ('0'.toNat : Int))) 0
      .ok (.num (if neg then -n else n), s2)

def identStartChar (c : Char) : Bool := c.isAlpha || c == '_' || c == '$'

def identChar (c : Char) : Bool := c.isAlphanum || c == '_' || c == '$'

mutual
/-- Parse one value.  Fuel-based so that it reduces in the kernel; the
top-level wrappers supply ample fuel. -/
def jpVal (strict : Bool) : Nat → List Char → Except Unit (JsValue × List Char)
  | 0, _ => .error ()
  | fuel + 1, s =>
    match skipWs strict s with
    | [] => .error ()
    | c :: rest =>
      if c = '"' then
        (fun p => (JsValue.str p.1, p.2)) <$> jpStringBody strict '"' rest
      else if ¬strict ∧ c = '\'' then
        (fun p => (JsValue.str p.1, p.2)) <$> jpStringBody strict '\'' rest
      else if c = '[' then jpArrItems strict fuel rest false []
      else if c = '\x7b' then jpObjMembers strict fuel rest false .nil
      else if "true".toList.isPrefixOf (c :: rest) then .ok (.bool true, (c :: rest).drop 4)
      else if "false".toList.isPrefixOf (c :: rest) then .ok (.bool false, (c :: rest).drop 5)
      else if "null".toList.isPrefixOf (c :: rest) then .ok (.null, (c :: rest).drop 4)
      else if c = '-' ∨ c.isDigit then jpNumber strict (c :: rest)
      else .error ()
/-- Parse array items after `[` (or after a comma when `afterComma`);
loose mode allows a trailing comma. -/
def jpArrItems (strict : Bool) : Nat → List Char → Bool → List JsValue →
    Except Unit (JsValue × List Char)
  | 0, _, _, _ => .error ()
  | fuel + 1, s, afterComma, acc =>
    match skipWs strict s with
    | ']' :: r => if strict ∧ afterComma then .error () else .ok (.arr (JsArr.ofList acc.reverse), r)
    | s1 => do
      let (v, r1) ← jpVal strict fuel s1
      match skipWs strict r1 with
      | ',' :: r2 => jpArrItems strict fuel r2 true (v :: acc)
      | ']' :: r2 => .ok (.arr (JsArr.ofList (v :: acc).reverse), r2)
      | _ => .error ()
/-- Parse object members after the opening brace (or after a comma);
loose mode allows single-quoted and bare identifier keys and a trailing
comma.  A duplicate key replaces the earlier binding. -/
def jpObjMembers (strict : Bool) : Nat → List Char → Bool → JsObj →
    Except Unit (JsValue × List Char)
  | 0, _, _, _ => .error ()
  | fuel + 1, s, afterComma, acc =>
    match skipWs strict s with
    | '\x7d' :: r => if strict ∧ afterComma then .error () else .ok (.obj acc, r)
    | s1 => do
      let (key, r1) ←
        match s1 with
        | '"' :: kr => jpStringBody strict '"' kr
        | '\'' :: kr => if strict then .error () else jpStringBody strict '\'' kr
        | kc :: _ =>
          if ¬strict ∧ identStartChar kc then
            .ok (s1.takeWhile identChar, s1.dropWhile identChar)
          else .error ()
        | [] => .error ()
      match skipWs strict r1 with
      | ':' :: r2 => do
        let (v, r3) ← jpVal strict fuel r2
        match skipWs strict r3 with
        | ',' :: r4 => jpObjMembers strict fuel r4 true (acc.setKey key v)
        | '\x7d' :: r4 => .ok (.obj (acc.setKey key v), r4)
        | _ => .error ()
      | _ => .error ()
end

/-- `JSON.parse(text)`: strict parse of one JSON value with no trailing
content. -/
def jsonParse (s : List Char) : Except Unit JsValue :=
  match jpVal true (2 * s.length + 8) s with
  | .ok (v, rest) => if (rest.dropWhile jsonWsChar).isEmpty then .ok v else .error ()
  | .error e => .error e

/-- Model of `eval('(' + text + ')')` restricted to data-literal
expressions (see the section comment). -/
def jsEval (s : List Char) : Except Unit JsValue :=
  match jpVal false (2 * s.length + 8) s with
  | .ok (v, rest) => if (dropWsLoose (rest.length + 1) rest).isEmpty then .ok v else .error ()
  | .error e => .error e

/-! ## The loose-syntax evaluator `parseJavaScriptObject` (Parser.js)

Tier (a): strict `JSON.parse` of the candidate.  Tier (b):
`JSON.parse` after replacing every single quote by a double quote,
removing each comma directly preceding (ws-separated) a closing brace
or bracket, and stripping block and line comments.  Tier (c):
expression evaluation of the original candidate.  A descriptive error
is raised only after all three fail. -/

/-- The regex `\s` character class (ASCII part plus NBSP; more exotic
Unicode spaces are not modelled). -/
def jsRegexWs (c : Char) : Bool :=
  c == ' ' || c == '\t' || c == '\n' || c == '\r' || c == '\x0b' || c == '\x0c' || c == '\xa0'

/-- The replacement `replace(/'/g, '"')`. -/
def replaceQuotes (s : List Char) : List Char :=
  s.map fun c => if c = '\'' then '"' else c

/-- The replacement `replace(/,(\s*[\x7d\]])/g, '$1')`: one global
left-to-right pass dropping a comma followed (after whitespace) by a
closing brace or bracket, resuming after the match. -/
def stripTCAux : Nat → List Char → List Char
  | 0, s => s
  | fuel + 1, s =>
    match s with
    | [] => []
    | ',' :: rest =>
      match rest.takeWhile jsRegexWs, rest.dropWhile jsRegexWs with
      | w, b :: r =>
        if b = '\x7d' ∨ b = ']' then w ++ (b :: stripTCAux fuel r)
        else ',' :: stripTCAux fuel rest
      | _, [] => ',' :: stripTCAux fuel rest
    | c :: rest => c :: stripTCAux fuel rest

def stripTrailingCommas (s : List Char) : List Char := stripTCAux (s.length + 1) s

/-- The replacement `replace(/\/\*[\s\S]*?\*\//g, '')`: remove each
non-greedy block comment; an unterminated `/*` is left in place. -/
def stripBCAux : Nat → List Char → List Char
  | 0, s => s
  | fuel + 1, s =>
    match s with
    | [] => []
    | '/' :: '*' :: rest =>
      match dropBlockEnd rest with
      | some r => stripBCAux fuel r
      | none => '/' :: stripBCAux fuel ('*' :: rest)
    | c :: rest => c :: stripBCAux fuel rest

def stripBlockComments (s : List Char) : List Char := stripBCAux (s.length + 1) s

/-- The replacement `replace(/\/\/.*/g, '')`: remove `//` to the end of
the line. -/
def stripLCAux : Nat → List Char → List Char
  | 0, s => s
  | fuel + 1, s =>
    match s with
    | [] => []
    | '/' :: '/' :: rest => stripLCAux fuel (dropLine rest)
    | c :: rest => c :: stripLCAux fuel rest

def stripLineComments (s : List Char) : List Char := stripLCAux (s.length + 1) s

/-- The tier (b) cleanup of `parseJavaScriptObject`. -/
def cleanJsCode (jsCode : List Char) : List Char :=
  stripLineComments (stripBlockComments (stripTrailingCommas (replaceQuotes jsCode)))

/-- `parseJavaScriptObject(jsCode)` from Parser.js: strict JSON parse,
then JSON parse of the cleaned text, then expression evaluation of the
original text, and a descriptive error only when all three fail. -/
def parseJavaScriptObject (jsCode : List Char) : Except Unit JsValue :=
  match jsonParse jsCode with
  | .ok v => .ok v
  | .error _ =>
    match jsonParse (cleanJsCode jsCode) with
    | .ok v => .ok v
    | .error _ =>
      match jsEval jsCode with
      | .ok v => .ok v
      | .error _ => .error ()

/-- Whether an `Except Unit` computation succeeded. -/
def isOkE {α : Type} : Except Unit α → Bool
  | .ok _ => true
  | .error _ => false

instance {ε α : Type} [DecidableEq ε] [DecidableEq α] : DecidableEq (Except ε α) := fun a b =>
  match a, b with
  | .ok x, .ok y => decidable_of_iff (x = y) (by simp)
  | .error x, .error y => decidable_of_iff (x = y) (by simp)
  | .ok _, .error _ => .isFalse (by simp)
  | .error _, .ok _ => .isFalse (by simp)

/-! ## The container model decoder (`parseContainerData_` and helpers)

Source: `src/GtmInspector.js` lines 571-1197.  Per-record JavaScript
exceptions (a nullish record, or a string method applied to a value of
the wrong type) are modelled by `Except Unit`: an `.error` of a record
decoder is a thrown TypeError, which — because `parseContainerData_`
has no per-record try/catch — aborts the whole decode and is caught
only by the enclosing locator strategy. -/

structure TagRow where
  containerId : List Char
  id : JsValue
  name : JsValue
  type : JsValue
  vendor : List Char
  priority : JsValue
  triggers : List Char
  consent : List Char
  firingOption : List Char
  setupTags : List Char
  raw : List Char
  deriving DecidableEq

structure TriggerRow where
  containerId : List Char
  id : List Char
  name : JsValue
  type : List Char
  eventName : List Char
  conditionsSummary : List Char
  exceptions : List Char
  raw : List Char
  deriving DecidableEq

structure VariableRow where
  containerId : List Char
  id : JsValue
  name : JsValue
  type : JsValue
  defaultValue : List Char
  dataLayerPath : JsValue
  detailsSummary : List Char
  raw : List Char
  deriving DecidableEq

structure RawData where
  tags : JsValue
  predicates : JsValue
  rules : JsValue
  macros : JsValue
  entities : JsValue
  deriving DecidableEq

structure Model where
  tags : List TagRow
  triggers : List TriggerRow
  vars : List VariableRow
  rawData : Option RawData
  deriving DecidableEq

def emptyModel : Model := { tags := [], triggers := [], vars := [], rawData := none }

mutual
/-- `JSON.stringify` of a value (none models the undefined result). -/
def jsonStringifyV : JsValue → Option (List Char)
  | .undefined => none
  | .null => some "null".toList
  | .bool true => some "true".toList
  | .bool false => some "false".toList
  | .num n => some (renderInt n)
  | .str s => some (renderStr s)
  | .arr xs => some ('[' :: (jsonStringifyArr xs ++ [']']))
  | .obj fs => some ('\x7b' :: (jsonStringifyObj fs ++ ['\x7d']))
/-- Array elements; undefined elements stringify as `null`. -/
def jsonStringifyArr : JsArr → List Char
  | .nil => []
  | .cons x .nil => (jsonStringifyV x).getD "null".toList
  | .cons x (.cons y tl) =>
    (jsonStringifyV x).getD "null".toList ++ (',' :: jsonStringifyArr (.cons y tl))
/-- Object members; fields with undefined values are skipped. -/
def jsonStringifyObj : JsObj → List Char
  | .nil => []
  | .cons k v tl =>
    match jsonStringifyV v with
    | none => jsonStringifyObj tl
    | some sv =>
      let rest := jsonStringifyObj tl
      renderStr k ++ (':' :: sv) ++ (if rest.isEmpty then [] else ',' :: rest)
end

/-- `JSON.stringify` as used for the `raw` columns (always applied to a
non-nullish record there). -/
def jsRawString (v : JsValue) : List Char := (jsonStringifyV v).getD "undefined".toList

/-- The metadata name scan: first entry equal to the string "name"
followed by a successor entry yields that successor. -/
def metadataName : List JsValue → Option JsValue
  | a :: b :: rest => if a.eqStr "name".toList then some b else metadataName (b :: rest)
  | _ => none

/-- `parseConsentSettings_(tag)` (lines 797-809). -/
def parseConsentSettings_ (tag : JsValue) : List Char :=
  let consent := tag.getField "consent".toList
  if ¬consent.truthy ∨ ¬consent.isArray then "None".toList
  else
    match consent with
    | .arr xs =>
      if (xs.toList.getD 0 .undefined).eqStr "list".toList then
        let consentTypes := (xs.toList.drop 1).filter JsValue.typeofString
        if 0 < consentTypes.length then jsJoin ", ".toList consentTypes else "None".toList
      else "None".toList
    | _ => "None".toList

/-- `parseTagFiringOption_(tag)` (lines 816-824). -/
def parseTagFiringOption_ (tag : JsValue) : List Char :=
  if (tag.getField "once_per_event".toList).eqTrue then "Once per event".toList
  else if (tag.getField "once_per_load".toList).eqTrue then "Once per page".toList
  else "Unlimited".toList

/-- `extractSetupTags_(tag)` (lines 831-844): entries shaped
`["tag", <number>, ...]` contribute their number; everything else is
ignored. -/
def extractSetupTags_ (tag : JsValue) : List JsValue :=
  match tag.getField "setup_tags".toList with
  | .arr xs =>
    xs.toList.filterMap fun item =>
      match item with
      | .arr it =>
        if (it.toList.getD 0 .undefined).eqStr "tag".toList ∧
            (it.toList.getD 1 .undefined).typeofNumber then
          some (it.toList.getD 1 .undefined)
        else none
      | _ => none
  | _ => []

/-- `identifyTagType_(tag)` (lines 702-746); `.includes`/`.startsWith`
on a non-string value throws. -/
def identifyTagType_ (tag : JsValue) : Except Unit JsValue := do
  let func : JsValue := (tag.getField "function".toList).or (.str [])
  let vtp : JsValue := ((tag.getField "vtp_trackingId".toList).or
    (tag.getField "vtp_measurementId".toList)).or (.str [])
  if ← jsIncludesE func "gaawe".toList then return .str "GA4 Event".toList
  if ← jsIncludesE func "gaawc".toList then return .str "GA4 Event".toList
  if func.eqStr "__googtag".toList then return .str "GA4 Config".toList
  if ← jsStartsWithE vtp "G-".toList then return .str "GA4 Config".toList
  if func.eqStr "__ua".toList then return .str "Universal Analytics".toList
  if func.eqStr "__gclidw".toList then return .str "Google Ads Conversion Linker".toList
  if ← jsIncludesE func "awct".toList then return .str "Google Ads Conversion Tracking".toList
  if ← jsIncludesE func "sp".toList then return .str "Google Ads Remarketing".toList
  if ← jsIncludesE func "flc".toList then return .str "Floodlight Counter/Sales".toList
  if ← jsIncludesE func "fls".toList then return .str "Floodlight Counter/Sales".toList
  if func.eqStr "__html".toList then return .str "Custom HTML".toList
  if func.eqStr "__img".toList then return .str "Custom Image".toList
  return func.or (.str "Unknown".toList)

/-- `identifyTagVendor_(tag)` (lines 753-790). -/
def identifyTagVendor_ (tag : JsValue) : Except Unit (List Char) := do
  let func := (tag.getField "function".toList).or (.str [])
  let html := (tag.getField "vtp_html".toList).or (.str [])
  if ← jsIncludesE func "gaa".toList then return "Google Analytics".toList
  if ← jsIncludesE func "googtag".toList then return "Google Analytics".toList
  if func.eqStr "__ua".toList then return "Google Analytics".toList
  if ← jsIncludesE func "awct".toList then return "Google Ads".toList
  if ← jsIncludesE func "gclidw".toList then return "Google Ads".toList
  if ← jsIncludesE func "sp".toList then return "Google Ads".toList
  if ← jsIncludesE func "flc".toList then return "Floodlight".toList
  if ← jsIncludesE func "fls".toList then return "Floodlight".toList
  if ← jsIncludesE html "fbq(".toList then return "Meta (Facebook)".toList
  if ← jsIncludesE html "ttq.".toList then return "TikTok".toList
  if ← jsIncludesE html "linkedin".toList then return "LinkedIn".toList
  if ← jsIncludesE html "pintrk".toList then return "Pinterest".toList
  if func.eqStr "__html".toList then return "Custom".toList
  if func.eqStr "__img".toList then return "Custom".toList
  return "Other/Unknown".toList

/-- The trigger-reference column of `parseGtmTag_` (lines 622-629):
`tag.tag_id` joined when an array, stringified when another defined
value, else empty. -/
def tagTriggers (tag : JsValue) : List Char :=
  let tagId := tag.getField "tag_id".toList
  if ¬(tagId = .undefined) ∧ ¬(tagId = .null) then
    match tagId with
    | .arr xs => jsJoin ", ".toList xs.toList
    | v => jsToString v
  else []

/-- Name-resolution steps 1-2 of `parseGtmTag_` (lines 632-642):
`tag.name || ''`, then the metadata `["...", "name", value]` scan. -/
def tagNameFromMeta (tag : JsValue) : JsValue :=
  let tagName0 : JsValue := (tag.getField "name".toList).or (.str [])
  let meta := tag.getField "metadata".toList
  if ¬tagName0.truthy ∧ meta.truthy ∧ meta.isArray then
    match meta with
    | .arr xs => (metadataName xs.toList).getD tagName0
    | _ => tagName0
  else tagName0

/-- Name-resolution step 3 of `parseGtmTag_` (lines 646-651): the
entity-table lookup `idx in entities`, which throws when `entities` is
a truthy primitive. -/
def entityNameLookup (tagName1 : JsValue) (entities : JsValue) (idx : Nat) :
    Except Unit JsValue :=
  if ¬tagName1.truthy ∧ entities.truthy then do
    let isIn ← jsInE (natDigits idx) entities
    if isIn then
      match entities.idx (.num idx) with
      | .arr xs =>
        if 0 < xs.toList.length then pure (xs.toList.getD 0 .undefined) else pure tagName1
      | _ => pure tagName1
    else pure tagName1
  else pure tagName1

/-- Name-resolution step 4 of `parseGtmTag_` (lines 654-672): the
vendor-specific vtp parameter fallback chain. -/
def tagNameVtp (tag : JsValue) (tagName2 : JsValue) : JsValue :=
  if ¬tagName2.truthy then
    if (tag.getField "vtp_name".toList).truthy then tag.getField "vtp_name".toList
    else if (tag.getField "vtp_tagId".toList).truthy then tag.getField "vtp_tagId".toList
    else if (tag.getField "vtp_activityTag".toList).truthy ∧
        (tag.getField "vtp_groupTag".toList).truthy then
      .str (jsToString (tag.getField "vtp_groupTag".toList) ++
        ('/' :: jsToString (tag.getField "vtp_activityTag".toList)))
    else if (tag.getField "vtp_trackingId".toList).truthy then
      tag.getField "vtp_trackingId".toList
    else if (tag.getField "vtp_measurementId".toList).truthy then
      tag.getField "vtp_measurementId".toList
    else if (tag.getField "vtp_conversionId".toList).truthy then
      .str ("Conversion ".toList ++ jsToString (tag.getField "vtp_conversionId".toList))
    else if (tag.getField "vtp_conversionLabel".toList).truthy then
      tag.getField "vtp_conversionLabel".toList
    else tagName2
  else tagName2

/-- The record assembly of `parseGtmTag_` (lines 674-694). -/
def mkTagRow (tag : JsValue) (idx : Nat) (containerId : List Char)
    (tagName2 ty : JsValue) (vendor : List Char) : TagRow :=
  { containerId := containerId
    id := (tag.getField "function".toList).or (.str ("tag_".toList ++ natDigits idx))
    name := tagNameVtp tag tagName2
    type := ty
    vendor := vendor
    priority := (tag.getField "priority".toList).or (.num 0)
    triggers := tagTriggers tag
    consent := parseConsentSettings_ tag
    firingOption := parseTagFiringOption_ tag
    setupTags := jsJoin ", ".toList (extractSetupTags_ tag)
    raw := jsRawString tag }

/-- `parseGtmTag_(tag, idx, containerId, entities)` (lines 620-695).
Throws when the raw tag is nullish, when `idx in entities` is applied
to a truthy primitive, or when type/vendor classification applies a
string method to a non-string value. -/
def parseGtmTag_ (tag : JsValue) (idx : Nat) (containerId : List Char) (entities : JsValue) :
    Except Unit TagRow :=
  if tag.isNullish then .error () else do
    let tagName2 ← entityNameLookup (tagNameFromMeta tag) entities idx
    let ty ← identifyTagType_ tag
    let vendor ← identifyTagVendor_ tag
    pure (mkTagRow tag idx containerId tagName2 ty vendor)

/-- `stringifyPredicate_(predicate)` (lines 969-982). -/
def stringifyPredicate_ (predicate : JsValue) : List Char :=
  let op := predicate.idx (.num 0)
  let val := predicate.idx (.num 2)
  let mapped : JsValue :=
    if op.eqStr "equals".toList then .str "==".toList
    else if op.eqStr "cn".toList then .str "contains".toList
    else if op.eqStr "sw".toList then .str "starts with".toList
    else if op.eqStr "ew".toList then .str "ends with".toList
    else if op.eqStr "regex".toList then .str "matches".toList
    else .undefined
  jsToString (mapped.or op) ++ (' ' :: '"' :: (jsToString val ++ ['"']))

/-- The shared per-index loop of `summarizeTriggerConditions_` and
`extractExceptionConditions_`: each referenced predicate is looked up
and, when the lookup is truthy (in particular: in range), stringified;
unresolved references are skipped. -/
def resolvedConditions (ids : List JsValue) (predicates : JsValue) : List (List Char) :=
  ids.filterMap fun idv =>
    let p := predicates.idx idv
    if p.truthy then some (stringifyPredicate_ p) else none

/-- `summarizeTriggerConditions_(rule, predicates)` (lines 950-962):
unresolved (falsy) predicate lookups are skipped; the first three
resolved conditions are joined, and an empty join falls back to
"All Pages".  Iterating a truthy non-array `rule.add` throws. -/
def summarizeTriggerConditions_ (rule : JsValue) (predicates : JsValue) :
    Except Unit (List Char) := do
  let conditions ←
    if (rule.getField "add".toList).truthy then
      match rule.getField "add".toList with
      | .arr ids => pure (resolvedConditions ids.toList predicates)
      | _ => throw ()
    else pure []
  let joined := List.intercalate " AND ".toList (conditions.take 3)
  return if joined.isEmpty then "All Pages".toList else joined

/-- The comparison `x > 0` as applied to a `length` read. -/
def jsGtZero (v : JsValue) : Bool :=
  match v with
  | .num n => 0 < n
  | _ => false

/-- `identifyTriggerType_(rule, predicates)` (lines 926-942). -/
def identifyTriggerType_ (rule : JsValue) (predicates : JsValue) : List Char :=
  let addv := rule.getField "add".toList
  if addv.truthy ∧ jsGtZero (addv.getField "length".toList) then
    let firstPredicate := predicates.idx (addv.idx (.num 0))
    if firstPredicate.truthy then
      let ty := firstPredicate.idx (.num 0)
      if ty.eqStr "equals".toList ∧ (firstPredicate.idx (.num 1)).truthy ∧
          ((firstPredicate.idx (.num 1)).getField "macro".toList).eqStr "0".toList then
        "Page View".toList
      else if ty.eqStr "cn".toList ∨ ty.eqStr "contains".toList then
        "Page View (conditional)".toList
      else "Custom Trigger".toList
    else "Custom Trigger".toList
  else "Custom Trigger".toList

/-- `extractExceptionConditions_(rule, predicates)` (lines 990-1004). -/
def extractExceptionConditions_ (rule : JsValue) (predicates : JsValue) : List Char :=
  let unlessv := rule.getField "unless".toList
  let exceptions :=
    if unlessv.truthy ∧ unlessv.isArray then
      match unlessv with
      | .arr ids => resolvedConditions ids.toList predicates
      | _ => []
    else []
  if 0 < exceptions.length then List.intercalate "; ".toList exceptions else "None".toList

/-- The per-entry loop of `extractEventName_`. -/
def extractEventNameLoop : List JsValue → JsValue → List Char
  | [], _ => []
  | pid :: rest, predicates =>
    let predicate := predicates.idx pid
    if ¬predicate.truthy ∨ ¬predicate.isArray then extractEventNameLoop rest predicates
    else
      let op := predicate.idx (.num 0)
      if op.eqStr "equals".toList ∨ op.eqStr "cn".toList then
        let arg0 := predicate.idx (.num 1)
        if arg0.isArray ∧ (arg0.idx (.num 0)).eqStr "macro".toList ∧
            (arg0.idx (.num 1)).eqNum 0 then
          match predicate.idx (.num 2) with
          | .str ev =>
            if 0 < ev.length ∧ ev.length < 100 ∧
                ¬("http".toList.isPrefixOf ev) ∧ ¬("/".toList.isPrefixOf ev) then ev
            else extractEventNameLoop rest predicates
          | _ => extractEventNameLoop rest predicates
        else extractEventNameLoop rest predicates
      else extractEventNameLoop rest predicates

/-- `extractEventName_(rule, predicates)` (lines 1012-1038). -/
def extractEventName_ (rule : JsValue) (predicates : JsValue) : List Char :=
  let addv := rule.getField "add".toList
  if ¬addv.truthy ∨ ¬addv.isArray then []
  else
    match addv with
    | .arr ids => extractEventNameLoop ids.toList predicates
    | _ => []

/-- The descriptive-name builder of `parseGtmTriggers_` (lines 874-890):
the literal operands of the first two resolvable conditions, filtered to
truthy strings of length 1-49. -/
def triggerConditionNames (addIds : List JsValue) (predicates : JsValue) : List (List Char) :=
  (addIds.take 2).filterMap fun pid =>
    let pred := predicates.idx pid
    if pred.truthy then
      match pred with
      | .arr p =>
        if 3 ≤ p.toList.length then
          let val := p.toList.getD 2 .undefined
          if val.truthy ∧ 0 < (jsToString val).length ∧ (jsToString val).length < 50 then
            some (jsToString val)
          else none
        else none
      | _ => none
    else none

/-- The trigger name resolution of `parseGtmTriggers_` (lines
858-897): explicit metadata, else a descriptive name from the first
conditions, else the positional placeholder. -/
def triggerName (predicates : JsValue) (rule : JsValue) (ridx : Nat) : JsValue :=
  let meta := rule.getField "metadata".toList
  let name0 : JsValue :=
    if meta.truthy ∧ meta.isArray then
      match meta with
      | .arr xs => (metadataName xs.toList).getD (.str [])
      | _ => .str []
    else .str []
  if ¬name0.truthy then
    let addv := rule.getField "add".toList
    let conditions :=
      if addv.truthy ∧ addv.isArray then
        match addv with
        | .arr ids => triggerConditionNames ids.toList predicates
        | _ => []
      else []
    if 0 < conditions.length then
      .str ("Trigger #".toList ++ natDigits ridx ++ ": ".toList ++
        List.intercalate " | ".toList conditions)
    else .str ("Trigger #".toList ++ natDigits ridx)
  else name0

/-- The record assembly of the `rules.forEach` body (lines 899-914). -/
def mkTriggerRow (predicates : JsValue) (rule : JsValue) (ridx : Nat)
    (containerId : List Char) (conds : List Char) : TriggerRow :=
  { containerId := containerId
    id := "trigger_".toList ++ natDigits ridx
    name := triggerName predicates rule ridx
    type := identifyTriggerType_ rule predicates
    eventName := extractEventName_ rule predicates
    conditionsSummary := conds
    exceptions := extractExceptionConditions_ rule predicates
    raw := jsRawString rule }

/-- One iteration of the `rules.forEach` body of `parseGtmTriggers_`
(lines 856-915). -/
def parseGtmTriggerOne (predicates : JsValue) (rule : JsValue) (ridx : Nat)
    (containerId : List Char) : Except Unit TriggerRow :=
  if rule.isNullish then .error () else do
    let conds ← summarizeTriggerConditions_ rule predicates
    pure (mkTriggerRow predicates rule ridx containerId conds)

/-- Effectful map with the element index (the `array.map((x, idx) =>`
and `array.forEach((x, idx) =>` pattern); a thrown error aborts the
whole traversal, as in JavaScript. -/
def mapIdxM {β : Type} (f : JsValue → Nat → Except Unit β) :
    List JsValue → Nat → Except Unit (List β)
  | [], _ => .ok []
  | x :: tl, i => do
    let r ← f x i
    let rest ← mapIdxM f tl (i + 1)
    .ok (r :: rest)

/-- `parseGtmTriggers_(predicates, rules, containerId, entities)`
(lines 853-918); `rules.forEach` on a non-array throws. -/
def parseGtmTriggers_ (predicates rules : JsValue) (containerId : List Char)
    (_entities : JsValue) : Except Unit (List TriggerRow) :=
  match rules with
  | .arr rs => mapIdxM (fun r i => parseGtmTriggerOne predicates r i containerId) rs.toList 0
  | _ => .error ()

/-- `identifyVariableType_` of a raw variable record (lines 1132-1146). -/
def identifyVariableType_ (mac : JsValue) : JsValue :=
  let func := (mac.getField "function".toList).or (.str [])
  if func.eqStr "__v".toList then .str "Data Layer Variable".toList
  else if func.eqStr "__u".toList then .str "URL".toList
  else if func.eqStr "__k".toList then .str "Constant".toList
  else if func.eqStr "__jsm".toList then .str "Custom JavaScript".toList
  else if func.eqStr "__r".toList then .str "Random Number".toList
  else if func.eqStr "__e".toList then .str "Environment".toList
  else if func.eqStr "__c".toList then .str "Container ID".toList
  else if func.eqStr "__j".toList then .str "JavaScript Variable".toList
  else if func.eqStr "__smm".toList then .str "Regex Table".toList
  else func.or (.str "Unknown".toList)

/-- `summarizeVariableDetails_` of a raw variable record (lines 1153-1165). -/
def summarizeVariableDetails_ (mac : JsValue) : List Char :=
  if (mac.getField "vtp_name".toList).truthy then
    "dataLayer: ".toList ++ jsToString (mac.getField "vtp_name".toList)
  else if (mac.getField "vtp_component".toList).truthy then
    "URL component: ".toList ++ jsToString (mac.getField "vtp_component".toList)
  else if (mac.getField "vtp_value".toList).truthy then
    "Value: ".toList ++ (jsToString (mac.getField "vtp_value".toList)).take 50
  else []

/-- `extractDefaultValue_` of a raw variable record (lines 1172-1178). -/
def extractDefaultValue_ (mac : JsValue) : List Char :=
  if (mac.getField "vtp_setDefaultValue".toList).eqTrue ∧
      ¬(mac.getField "vtp_defaultValue".toList = .undefined) then
    let val := jsToString (mac.getField "vtp_defaultValue".toList)
    if 100 < val.length then val.take 100 ++ "...".toList else val
  else []

/-- `extractDataLayerPath_` of a raw variable record (lines 1185-1197). -/
def extractDataLayerPath_ (mac : JsValue) : JsValue :=
  if (mac.getField "function".toList).eqStr "__v".toList ∧
      (mac.getField "vtp_name".toList).truthy then
    mac.getField "vtp_name".toList
  else if (mac.getField "vtp_dataLayerVariable".toList).truthy then
    mac.getField "vtp_dataLayerVariable".toList
  else .str []

/-- The name cascade and record assembly of `parseGtmVariable_`
(lines 1049-1124), all pure. -/
def mkVariableRow (mac : JsValue) (idx : Nat) (containerId : List Char) : VariableRow :=
  let varName0 : JsValue := (mac.getField "name".toList).or (.str [])
  let meta := mac.getField "metadata".toList
  let varName1 : JsValue :=
    if ¬varName0.truthy ∧ meta.truthy ∧ meta.isArray then
      match meta with
      | .arr xs => (metadataName xs.toList).getD varName0
      | _ => varName0
    else varName0
  let varName2 : JsValue :=
    if ¬varName1.truthy ∧ (mac.getField "vtp_name".toList).truthy then
      mac.getField "vtp_name".toList
    else varName1
  let varName3 : JsValue :=
    if ¬varName2.truthy then
      let func := (mac.getField "function".toList).or (.str [])
      if func.eqStr "__k".toList ∧ (mac.getField "vtp_name".toList).truthy then
        .str ("Cookie: ".toList ++ jsToString (mac.getField "vtp_name".toList))
      else if func.eqStr "__k".toList ∧ (mac.getField "vtp_value".toList).truthy then
        let val := jsToString (mac.getField "vtp_value".toList)
        .str ("Constant: ".toList ++
          (if 30 < val.length then val.take 30 ++ "...".toList else val))
      else if func.eqStr "__u".toList ∧ (mac.getField "vtp_component".toList).truthy then
        .str ("URL - ".toList ++ jsToString (mac.getField "vtp_component".toList) ++
          (if (mac.getField "vtp_queryKey".toList).truthy then
            ": ".toList ++ jsToString (mac.getField "vtp_queryKey".toList)
          else []))
      else if func.eqStr "__v".toList ∧ (mac.getField "vtp_name".toList).truthy then
        .str ("DL: ".toList ++ jsToString (mac.getField "vtp_name".toList))
      else if func.eqStr "__jsm".toList then
        .str ("Custom JS #".toList ++ natDigits idx)
      else if func.eqStr "__c".toList ∧ (mac.getField "vtp_value".toList).truthy then
        .str ("Container: ".toList ++ jsToString (mac.getField "vtp_value".toList))
      else if func.eqStr "__smm".toList ∨ func.eqStr "__remm".toList then
        .str ("Lookup Table #".toList ++ natDigits idx)
      else if func.eqStr "__e".toList then .str "Environment Name".toList
      else if func.eqStr "__r".toList then .str "Random Number".toList
      else if func.eqStr "__f".toList then .str "Referrer URL".toList
      else if func.eqStr "__aev".toList then .str "Auto-Event Variable".toList
      else
        .str ("Variable #".toList ++ natDigits idx ++ " (".toList ++ jsToString func ++ ")".toList)
    else varName2
  { containerId := containerId
    id := (mac.getField "function".toList).or (.str ("var_".toList ++ natDigits idx))
    name := varName3
    type := identifyVariableType_ mac
    defaultValue := extractDefaultValue_ mac
    dataLayerPath := extractDataLayerPath_ mac
    detailsSummary := summarizeVariableDetails_ mac
    raw := jsRawString mac }

/-- `parseGtmVariable_` of one raw variable record (lines 1047-1125);
throws only when the record is nullish. -/
def parseGtmVariable_ (mac : JsValue) (idx : Nat) (containerId : List Char)
    (_entities : JsValue) : Except Unit VariableRow :=
  if mac.isNullish then .error () else pure (mkVariableRow mac idx containerId)

/-- The `rawData` capture of `parseContainerData_` (lines 576-582). -/
def mkRawData (data : JsValue) : RawData :=
  { tags := (data.getField "tags".toList).or (.arr .nil)
    predicates := (data.getField "predicates".toList).or (.arr .nil)
    rules := (data.getField "rules".toList).or (.arr .nil)
    macros := (data.getField "macros".toList).or (.arr .nil)
    entities := (data.getField "entities".toList).or (.obj .nil) }

/-- The `entities` default `data.entities || \x7b\x7d` (line 586). -/
def effEntities (data : JsValue) : JsValue :=
  (data.getField "entities".toList).or (.obj .nil)

/-- The tag pass of `parseContainerData_` (lines 590-593). -/
def decodeTags (data : JsValue) (containerId : List Char) : Except Unit (List TagRow) :=
  if (data.getField "tags".toList).truthy ∧ (data.getField "tags".toList).isArray then
    match data.getField "tags".toList with
    | .arr ts => mapIdxM (fun t i => parseGtmTag_ t i containerId (effEntities data)) ts.toList 0
    | _ => pure []
  else pure []

/-- The trigger pass of `parseContainerData_` (lines 596-599). -/
def decodeTriggers (data : JsValue) (containerId : List Char) : Except Unit (List TriggerRow) :=
  if (data.getField "predicates".toList).truthy ∧ (data.getField "rules".toList).truthy then
    parseGtmTriggers_ (data.getField "predicates".toList) (data.getField "rules".toList)
      containerId (effEntities data)
  else pure []

/-- The variable pass of `parseContainerData_` (lines 602-605). -/
def decodeVariables (data : JsValue) (containerId : List Char) :
    Except Unit (List VariableRow) :=
  if (data.getField "macros".toList).truthy ∧ (data.getField "macros".toList).isArray then
    match data.getField "macros".toList with
    | .arr ms =>
      mapIdxM (fun m i => parseGtmVariable_ m i containerId (effEntities data)) ms.toList 0
    | _ => pure []
  else pure []

/-- `parseContainerData_(data, containerId)` (lines 571-610): the raw
sub-arrays are decoded with plain `map`/`forEach` — there is no
per-record try/catch, so any record that throws aborts the decode. -/
def parseContainerData_ (data : JsValue) (containerId : List Char) : Except Unit Model :=
  if data.isNullish then .error () else do
    let tagRows ← decodeTags data containerId
    let trigRows ← decodeTriggers data containerId
    let varRows ← decodeVariables data containerId
    pure (Model.mk tagRows trigRows varRows (some (mkRawData data)))

/-! ## The container locator (`extractContainerModelFromRawJs_`)

Source: `src/GtmInspector.js` lines 292-563.  Six strategies are tried
in order; each strategy's internal failure (no pattern match, failed
extraction, parse/eval error, or a decode exception) falls through to
the next, and total failure yields the empty model.  The regular
expressions are embedded as explicit matchers below. -/

/-- A pattern piece: consumes a prefix, returning (consumed length,
rest). -/
def pLit (lit : List Char) (s : List Char) : Option (Nat × List Char) :=
  if lit.isPrefixOf s then some (lit.length, s.drop lit.length) else none

/-- Regex `\s*`. -/
def pWsStar (s : List Char) : Option (Nat × List Char) :=
  some ((s.takeWhile jsRegexWs).length, s.dropWhile jsRegexWs)

/-- Regex `\s+`. -/
def pWsPlus (s : List Char) : Option (Nat × List Char) :=
  let n := (s.takeWhile jsRegexWs).length
  if n = 0 then none else some (n, s.dropWhile jsRegexWs)

def pChar (c : Char) (s : List Char) : Option (Nat × List Char) :=
  match s with
  | c2 :: r => if c2 = c then some (1, r) else none
  | [] => none

/-- Regex character class `['"]`. -/
def pQuoteC (s : List Char) : Option (Nat × List Char) :=
  match s with
  | c :: r => if c = '"' ∨ c = '\'' then some (1, r) else none
  | [] => none

def pSeq (p q : List Char → Option (Nat × List Char)) (s : List Char) :
    Option (Nat × List Char) :=
  match p s with
  | some (n, r) =>
    match q r with
    | some (m, r2) => some (n + m, r2)
    | none => none
  | none => none

/-- First match of a pattern (the position where a regex first
matches), returning (index, match length). -/
def findMatch (p : List Char → Option (Nat × List Char)) : List Char → Nat → Option (Nat × Nat)
  | [], _ => none
  | s@(_ :: tl), i =>
    match p s with
    | some (n, _) => some (i, n)
    | none => findMatch p tl (i + 1)

/-- All non-overlapping matches, left to right (the `matchAll` / global
`exec` loop), as (index, length) pairs. -/
def allMatches (p : List Char → Option (Nat × List Char)) :
    Nat → List Char → Nat → List (Nat × Nat)
  | 0, _, _ => []
  | _ + 1, [], _ => []
  | fuel + 1, s@(_ :: tl), i =>
    match p s with
    | some (n, _) => (i, n) :: allMatches p fuel (s.drop n) (i + n)
    | none => allMatches p fuel tl (i + 1)

/-- Strategy 0 trigger, regex `var\s+data\s*=\s*\x7b`. -/
def varDataPat : List Char → Option (Nat × List Char) :=
  pSeq (pLit "var".toList) (pSeq pWsPlus (pSeq (pLit "data".toList)
    (pSeq pWsStar (pSeq (pChar '=') (pSeq pWsStar (pChar '\x7b'))))))

/-- Strategy 1 trigger: the escaped container id inside
`google_tag_manager\["<id>"\]\s*=\s*\x7b`. -/
def directGtmPat (containerId : List Char) : List Char → Option (Nat × List Char) :=
  pSeq (pLit ("google_tag_manager[\"".toList ++ containerId ++ "\"]".toList))
    (pSeq pWsStar (pSeq (pChar '=') (pSeq pWsStar (pChar '\x7b'))))

/-- Strategy 3 trigger:
`google_tag_manager\s*\[\s*["\']<id>["\']\s*\]\s*=\s*\x7b`. -/
def windowGtmPat (containerId : List Char) : List Char → Option (Nat × List Char) :=
  pSeq (pLit "google_tag_manager".toList) (pSeq pWsStar (pSeq (pChar '[')
    (pSeq pWsStar (pSeq pQuoteC (pSeq (pLit containerId) (pSeq pQuoteC
      (pSeq pWsStar (pSeq (pChar ']') (pSeq pWsStar (pSeq (pChar '=')
        (pSeq pWsStar (pChar '\x7b'))))))))))))

/-- The body search of the strategy 2 gate regex after
`\.push\s*\(\s*\x7b`: a nonempty run of non-`)` characters, then `\x7d`,
then `\s*`, then `)` (with the backtracking the regex engine performs on
`[^)]+`). -/
def pushGateTail : List Char → Nat → Bool
  | [], _ => false
  | c :: rest, consumed =>
    if c = ')' then false
    else
      (if c = '\x7d' ∧ 1 ≤ consumed then
        (match rest.dropWhile jsRegexWs with
          | ')' :: _ => true
          | _ => false)
      else false) || pushGateTail rest (consumed + 1)

/-- Does the strategy 2 gate regex `\.push\s*\(\s*(\x7b[^)]+\x7d)\s*\)`
match at the head of `s`? -/
def pushGateHere (s : List Char) : Bool :=
  match pSeq (pLit ".push".toList) (pSeq pWsStar (pSeq (pChar '(')
      (pSeq pWsStar (pChar '\x7b')))) s with
  | some (_, r) => pushGateTail r 0
  | none => false

/-- Does a pattern match at any position of `s`? -/
def anyPos (f : List Char → Bool) : List Char → Bool
  | [] => f []
  | s@(_ :: tl) => f s || anyPos f tl

/-- The `matchAll` pattern of `extractJsonFromPush_`:
`\.push\s*\(\s*(\x7b)`. -/
def pushOpenPat : List Char → Option (Nat × List Char) :=
  pSeq (pLit ".push".toList) (pSeq pWsStar (pSeq (pChar '(') (pSeq pWsStar (pChar '\x7b'))))

/-- The candidate loop of `extractJsonFromPush_` (lines 487-509). -/
def pushLoop (rawJs : List Char) : List (Nat × Nat) → Option JsValue
  | [] => none
  | (i, n) :: rest =>
    match extractCompleteObject_ rawJs (i + n - 1) with
    | some extracted =>
      if 1000 < extracted.length then
        match jsonParse extracted with
        | .ok data =>
          if (data.getField "tags".toList).truthy ∨ (data.getField "macros".toList).truthy ∨
              (data.getField "resource".toList).truthy then
            some ((data.getField "resource".toList).or data)
          else pushLoop rawJs rest
        | .error _ => pushLoop rawJs rest
      else pushLoop rawJs rest
    | none => pushLoop rawJs rest

/-- `extractJsonFromPush_(rawJs)` (lines 487-509). -/
def extractJsonFromPush_ (rawJs : List Char) : Option JsValue :=
  pushLoop rawJs (allMatches pushOpenPat (rawJs.length + 1) rawJs 0)

/-- First occurrence of a literal (`String.prototype.indexOf`). -/
def indexOfLit (lit : List Char) : List Char → Nat → Option Nat
  | [], _ => none
  | s@(_ :: tl), i => if lit.isPrefixOf s then some i else indexOfLit lit tl (i + 1)

/-- Stable descending insertion by extracted length (the JavaScript
stable `sort((a, b) => b.extracted.length - a.extracted.length)`). -/
def insertDesc (x : Nat × List Char) : List (Nat × List Char) → List (Nat × List Char)
  | [] => [x]
  | y :: tl => if y.2.length < x.2.length then x :: y :: tl else y :: insertDesc x tl

def sortDesc : List (Nat × List Char) → List (Nat × List Char)
  | [] => []
  | x :: tl => insertDesc x (sortDesc tl)

/-- The shape test loop of `findContainerDataObject_` (lines 547-560). -/
def candidateLoop : List (Nat × List Char) → Option JsValue
  | [] => none
  | (_, extracted) :: rest =>
    match jsonParse extracted with
    | .ok data =>
      if ((data.getField "tags".toList).truthy ∧ (data.getField "tags".toList).isArray) ∨
          ((data.getField "macros".toList).truthy ∧
            (data.getField "macros".toList).isArray) then
        some data
      else candidateLoop rest
    | .error _ => candidateLoop rest

/-- `findContainerDataObject_(rawJs)` (lines 516-563): brace positions
over `i < length - 100` keeping the last 1000, balanced extraction, the
`> 5000` size filter, stable sort by length descending, and a JSON
parse plus shape test of the first 20 candidates. -/
def findContainerDataObject_ (rawJs : List Char) : Option JsValue :=
  let objectStarts := (List.range (rawJs.length - 100)).filter fun i => rawJs.getD i ' ' = '\x7b'
  let kept := objectStarts.drop (objectStarts.length - 1000)
  let candidates := kept.filterMap fun i =>
    match extractCompleteObject_ rawJs i with
    | some e => if 5000 < e.length then some (i, e) else none
    | none => none
  candidateLoop ((sortDesc candidates).take 20)

def toOptionE {α : Type} : Except Unit α → Option α
  | .ok a => some a
  | .error _ => none

/-- Strategy 0 (lines 307-341): `var data = \x7b...\x7d` pattern,
balanced extraction, evaluation, and decode of `data.resource` when
present (else of `data` itself). -/
def strategy0 (rawJs containerId : List Char) : Option Model :=
  match findMatch varDataPat rawJs 0 with
  | none => none
  | some (i, n) =>
    match extractCompleteObject_ rawJs (i + n - 1) with
    | none => none
    | some extracted =>
      match jsEval extracted with
      | .error _ => none
      | .ok data =>
        if (data.getField "resource".toList).truthy then
          toOptionE (parseContainerData_ (data.getField "resource".toList) containerId)
        else toOptionE (parseContainerData_ data containerId)

/-- Strategy 1 (lines 343-362): container-id-specific direct assignment
with strict JSON parsing. -/
def strategy1 (rawJs containerId : List Char) : Option Model :=
  match findMatch (directGtmPat containerId) rawJs 0 with
  | none => none
  | some (i, n) =>
    match extractCompleteObject_ rawJs (i + n - 1) with
    | none => none
    | some extracted =>
      match jsonParse extracted with
      | .error _ => none
      | .ok data => toOptionE (parseContainerData_ data containerId)

/-- Strategy 2 (lines 364-377): the `.push(` gate and
`extractJsonFromPush_`. -/
def strategy2 (rawJs containerId : List Char) : Option Model :=
  if anyPos pushGateHere rawJs then
    match extractJsonFromPush_ rawJs with
    | some data => toOptionE (parseContainerData_ data containerId)
    | none => none
  else none

/-- Strategy 3 (lines 379-395): the bracket-indexed window assignment
pattern with strict JSON parsing. -/
def strategy3 (rawJs containerId : List Char) : Option Model :=
  match findMatch (windowGtmPat containerId) rawJs 0 with
  | none => none
  | some (i, n) =>
    match extractCompleteObject_ rawJs (i + n - 1) with
    | none => none
    | some extracted =>
      match jsonParse extracted with
      | .error _ => none
      | .ok data => toOptionE (parseContainerData_ data containerId)

/-- Strategy 4 (lines 397-413): the legacy `\x7b"resource":\x7b` pattern;
note the extraction starts at the first occurrence of the shorter
literal `\x7b"resource"`, exactly as `indexOf` does in the source. -/
def strategy4 (rawJs containerId : List Char) : Option Model :=
  if listHasInfix rawJs "\x7b\"resource\":\x7b".toList then
    match indexOfLit "\x7b\"resource\"".toList rawJs 0 with
    | none => none
    | some i =>
      match extractCompleteObject_ rawJs i with
      | none => none
      | some extracted =>
        match jsonParse extracted with
        | .error _ => none
        | .ok resource =>
          if resource.truthy ∧ (resource.getField "resource".toList).truthy then
            toOptionE (parseContainerData_ (resource.getField "resource".toList) containerId)
          else none
  else none

/-- Strategy 5 (lines 415-421): the exhaustive fallback. -/
def strategy5 (rawJs containerId : List Char) : Option Model :=
  match findContainerDataObject_ rawJs with
  | some data => toOptionE (parseContainerData_ data containerId)
  | none => none

/-- `extractContainerModelFromRawJs_(rawJs, containerId)` (lines
292-432): the ordered strategy cascade; every internal exception is
caught (inner per-strategy catches and the outer catch), so the
function is total and yields the initial empty model when every
strategy fails. -/
def extractContainerModelFromRawJs_ (rawJs containerId : List Char) : Model :=
  match strategy0 rawJs containerId with
  | some m => m
  | none =>
  match strategy1 rawJs containerId with
  | some m => m
  | none =>
  match strategy2 rawJs containerId with
  | some m => m
  | none =>
  match strategy3 rawJs containerId with
  | some m => m
  | none =>
  match strategy4 rawJs containerId with
  | some m => m
  | none =>
  match strategy5 rawJs containerId with
  | some m => m
  | none => emptyModel

/-! ## The vendor signature scanner (`analyzeVendorsFromRawJs_`)

Source: `src/GtmInspector.js` lines 1208-1342.  Each regex is applied
globally over the raw text; hits are deduplicated through one shared
`seen` set whose keys are the raw id (Google patterns) or a
vendor-prefixed id (`fb_`, `tt_`, `li_`, `pin_`). -/

structure VendorHit where
  containerId : List Char
  vendor : List Char
  type : List Char
  id : List Char
  extra : List Char
  deriving DecidableEq

/-- Regex class `[A-Z0-9]`. -/
def azdChar (c : Char) : Bool := decide ('A' ≤ c ∧ c ≤ 'Z') || c.isDigit

def isQuoteHead (s : List Char) : Bool :=
  match s with
  | c :: _ => c = '"' ∨ c = '\''
  | [] => false

/-- `G-[A-Z0-9]\x7b7,12\x7d` at the head; the id is the whole match. -/
def ga4TryAt (s : List Char) : Option (List Char × Nat) :=
  match s with
  | 'G' :: '-' :: rest =>
    let run := rest.takeWhile azdChar
    let k := min run.length 12
    if 7 ≤ k then some ('G' :: '-' :: run.take k, 2 + k) else none
  | _ => none

/-- The backtracking search for `UA-\d\x7b4,10\x7d-\d\x7b1,4\x7d` after
`UA-`: the largest digit count 4-10 followed by a dash and 1-4 digits. -/
def uaFindAux (rest : List Char) : Nat → Option (Nat × Nat)
  | 0 => none
  | m + 1 =>
    let mm := m + 1
    if 4 ≤ mm ∧ mm ≤ (rest.takeWhile Char.isDigit).length then
      match rest.drop mm with
      | '-' :: r2 =>
        let k2 := min 4 (r2.takeWhile Char.isDigit).length
        if 1 ≤ k2 then some (mm, k2) else uaFindAux rest m
      | _ => uaFindAux rest m
    else uaFindAux rest m

def uaTryAt (s : List Char) : Option (List Char × Nat) :=
  match s with
  | 'U' :: 'A' :: '-' :: rest =>
    match uaFindAux rest 10 with
    | some (m, k2) => some (s.take (3 + m + 1 + k2), 3 + m + 1 + k2)
    | none => none
  | _ => none

/-- `AW-\d\x7b6,12\x7d`. -/
def awTryAt (s : List Char) : Option (List Char × Nat) :=
  match s with
  | 'A' :: 'W' :: '-' :: rest =>
    let k := min (rest.takeWhile Char.isDigit).length 12
    if 6 ≤ k then some (s.take (3 + k), 3 + k) else none
  | _ => none

/-- `DC-\d\x7b6,12\x7d`. -/
def dcTryAt (s : List Char) : Option (List Char × Nat) :=
  match s with
  | 'D' :: 'C' :: '-' :: rest =>
    let k := min (rest.takeWhile Char.isDigit).length 12
    if 6 ≤ k then some (s.take (3 + k), 3 + k) else none
  | _ => none

/-- `fbq\(['"]init['"],\s*['"](\d\x7b15,16\x7d)['"]`; the id is the
captured digit group. -/
def fbTryAt (s : List Char) : Option (List Char × Nat) :=
  match pSeq (pLit "fbq(".toList) (pSeq pQuoteC (pSeq (pLit "init".toList)
      (pSeq pQuoteC (pSeq (pChar ',') (pSeq pWsStar pQuoteC))))) s with
  | some (n1, r) =>
    let d := (r.takeWhile Char.isDigit).length
    if 16 ≤ d ∧ isQuoteHead (r.drop 16) then some (r.take 16, n1 + 17)
    else if 15 ≤ d ∧ isQuoteHead (r.drop 15) then some (r.take 15, n1 + 16)
    else none
  | none => none

/-- `ttq\.load\(['"]([A-Z0-9]\x7b20,\x7d)['"]`. -/
def ttTryAt (s : List Char) : Option (List Char × Nat) :=
  match pSeq (pLit "ttq.load(".toList) pQuoteC s with
  | some (n1, r) =>
    let run := r.takeWhile azdChar
    if 20 ≤ run.length ∧ isQuoteHead (r.drop run.length) then
      some (run, n1 + run.length + 1)
    else none
  | none => none

/-- `_linkedin_partner_id\s*=\s*['"](\d+)['"]`. -/
def liTryAt (s : List Char) : Option (List Char × Nat) :=
  match pSeq (pLit "_linkedin_partner_id".toList) (pSeq pWsStar (pSeq (pChar '=')
      (pSeq pWsStar pQuoteC))) s with
  | some (n1, r) =>
    let run := r.takeWhile Char.isDigit
    if 1 ≤ run.length ∧ isQuoteHead (r.drop run.length) then
      some (run, n1 + run.length + 1)
    else none
  | none => none

/-- `pintrk\(['"]load['"],\s*['"](\d+)['"]`. -/
def pinTryAt (s : List Char) : Option (List Char × Nat) :=
  match pSeq (pLit "pintrk(".toList) (pSeq pQuoteC (pSeq (pLit "load".toList)
      (pSeq pQuoteC (pSeq (pChar ',') (pSeq pWsStar pQuoteC))))) s with
  | some (n1, r) =>
    let run := r.takeWhile Char.isDigit
    if 1 ≤ run.length ∧ isQuoteHead (r.drop run.length) then
      some (run, n1 + run.length + 1)
    else none
  | none => none

/-- All ids found by a global `exec` loop over a pattern,
non-overlapping, left to right. -/
def scanPattern (tryAt : List Char → Option (List Char × Nat)) :
    Nat → List Char → List (List Char)
  | 0, _ => []
  | _ + 1, [] => []
  | fuel + 1, s@(_ :: tl) =>
    match tryAt s with
    | some (idv, n) => idv :: scanPattern tryAt fuel (s.drop n)
    | none => scanPattern tryAt fuel tl

/-- Push one pattern's hits through the shared dedup set. -/
def addHits (containerId vendor ty keyPre : List Char) (ids : List (List Char))
    (st : List (List Char) × List VendorHit) : List (List Char) × List VendorHit :=
  ids.foldl
    (fun st idv =>
      let key := keyPre ++ idv
      if st.1.any fun k => k = key then st
      else
        (key :: st.1, st.2 ++ [VendorHit.mk containerId vendor ty idv []]))
    st

/-- `analyzeVendorsFromRawJs_(rawJs, containerId, tags)` (lines
1208-1342). -/
def analyzeVendorsFromRawJs_ (rawJs containerId : List Char) (_tags : List TagRow) :
    List VendorHit :=
  let fuel := rawJs.length + 1
  let st1 := addHits containerId "Google Analytics".toList "GA4 Measurement ID".toList []
    (scanPattern ga4TryAt fuel rawJs) ([], [])
  let st2 := addHits containerId "Google Analytics".toList "UA Property ID".toList []
    (scanPattern uaTryAt fuel rawJs) st1
  let st3 := addHits containerId "Google Ads".toList "Conversion ID".toList []
    (scanPattern awTryAt fuel rawJs) st2
  let st4 := addHits containerId "Floodlight".toList "Advertiser ID".toList []
    (scanPattern dcTryAt fuel rawJs) st3
  let st5 := addHits containerId "Meta (Facebook)".toList "Pixel ID".toList "fb_".toList
    (scanPattern fbTryAt fuel rawJs) st4
  let st6 := addHits containerId "TikTok".toList "Pixel ID".toList "tt_".toList
    (scanPattern ttTryAt fuel rawJs) st5
  let st7 := addHits containerId "LinkedIn".toList "Partner ID".toList "li_".toList
    (scanPattern liTryAt fuel rawJs) st6
  let st8 := addHits containerId "Pinterest".toList "Tag ID".toList "pin_".toList
    (scanPattern pinTryAt fuel rawJs) st7
  st8.2

/-! ## Test vectors and well-shapedness conditions -/

/-- The end-to-end scenario A source text from the specification. -/
def scenarioAText : List Char :=
  ("var data = \x7b\"resource\": \x7b\"tags\":[\x7b\"function\":\"__html\"," ++
   "\"vtp_html\":\"<script>fbq('init','123456789012345');</script>\"\x7d], " ++
   "\"macros\":[], \"predicates\":[], \"rules\":[]\x7d\x7d;").toList

/-- A value that is a string or falsy (so `(v || '').includes` and
`.startsWith` cannot throw). -/
def strOrFalsy (v : JsValue) : Bool := v.typeofString || !v.truthy

/-- A raw tag record on which `parseGtmTag_` cannot throw a TypeError:
not nullish, and the fields fed to string methods are strings or
absent/falsy. -/
def tameTag (t : JsValue) : Bool :=
  !t.isNullish && strOrFalsy (t.getField "function".toList) &&
    strOrFalsy (t.getField "vtp_trackingId".toList) &&
    strOrFalsy (t.getField "vtp_measurementId".toList) &&
    strOrFalsy (t.getField "vtp_html".toList)

/-- A raw rule record on which trigger synthesis cannot throw: not
nullish, and an `add` field that is absent/falsy or an array. -/
def tameRule (r : JsValue) : Bool :=
  !r.isNullish && (!(r.getField "add".toList).truthy || (r.getField "add".toList).isArray)

/-- An `entities` field on which `idx in entities` cannot throw:
absent/falsy, or an object or array. -/
def entitiesOk (e : JsValue) : Bool :=
  !e.truthy ||
    (match e with
      | .obj _ => true
      | .arr _ => true
      | _ => false)

theorem scanFinal_nil (st : ScanSt) : scanFinal [] st = st := rfl

theorem scanFinal_cons (c : Char) (cs : List Char) (st : ScanSt) :
    scanFinal (c :: cs) st = scanFinal cs (stepSt st c) := rfl

theorem scanSafe_cons (c : Char) (cs : List Char) (st : ScanSt) :
    scanSafe (c :: cs) st = (!breaksAt st c && scanSafe cs (stepSt st c)) := rfl

theorem ecoLoop_cons (c : Char) (cs : List Char) (i : Nat) (st : ScanSt) :
    ecoLoop (c :: cs) i st =
      if breaksAt st c then some (i + 1) else ecoLoop cs (i + 1) (stepSt st c) := rfl

theorem scanFinal_append (xs ys : List Char) (st : ScanSt) :
    scanFinal (xs ++ ys) st = scanFinal ys (scanFinal xs st) := by
  simp [scanFinal, List.foldl_append]

theorem scanSafe_append (xs ys : List Char) (st : ScanSt) :
    scanSafe (xs ++ ys) st = (scanSafe xs st && scanSafe ys (scanFinal xs st)) := by
  induction xs generalizing st with
  | nil => simp [scanSafe, scanFinal]
  | cons c cs ih =>
    rw [List.cons_append, scanSafe_cons, scanSafe_cons, ih, scanFinal_cons,
      Bool.and_assoc]

theorem ecoLoop_append_of_safe {xs : List Char} {st : ScanSt}
    (h : scanSafe xs st = true) (ys : List Char) (i : Nat) :
    ecoLoop (xs ++ ys) i st = ecoLoop ys (i + xs.length) (scanFinal xs st) := by
  induction xs generalizing st i with
  | nil => simp [scanFinal]
  | cons c cs ih =>
    rw [scanSafe_cons, Bool.and_eq_true, Bool.not_eq_true'] at h
    rw [List.cons_append, ecoLoop_cons, if_neg (by simp [h.1]), ih h.2,
      scanFinal_cons, List.length_cons]
    congr 1
    omega

theorem ecoLoop_none_of_safe {xs : List Char} {st : ScanSt}
    (h : scanSafe xs st = true) (i : Nat) : ecoLoop xs i st = none := by
  induction xs generalizing st i with
  | nil => rfl
  | cons c cs ih =>
    rw [scanSafe_cons, Bool.and_eq_true, Bool.not_eq_true'] at h
    rw [ecoLoop_cons, if_neg (by simp [h.1])]
    exact ih h.2 _


theorem scan_one_neutral {c : Char} (h : neutralChar c = true) (b : Int) :
    breaksAt (b, false, false) c = false ∧ stepSt (b, false, false) c = (b, false, false) := by
  simp only [neutralChar, Bool.not_eq_true', Bool.or_eq_false_iff, beq_eq_false_iff_ne,
    ne_eq] at h
  obtain ⟨⟨⟨h1, h2⟩, h3⟩, h4⟩ := h
  refine ⟨by simp [breaksAt, h4], by simp [stepSt, h1, h2, h3, h4]⟩

theorem scan_block_neutral {cs : List Char} (h : ∀ c ∈ cs, neutralChar c = true) (b : Int) :
    scanSafe cs (b, false, false) = true ∧ scanFinal cs (b, false, false) = (b, false, false) := by
  induction cs with
  | nil => exact ⟨rfl, rfl⟩
  | cons c tl ih =>
    have hc := scan_one_neutral (h c (by simp)) b
    have htl := ih fun x hx => h x (by simp [hx])
    refine ⟨?_, ?_⟩
    · rw [scanSafe_cons, hc.1, hc.2]
      simpa using htl.1
    · rw [scanFinal_cons, hc.2]
      exact htl.2

theorem digitChar_neutral (n : Nat) : neutralChar (digitChar n) = true := by
  unfold digitChar
  repeat' split
  all_goals decide

theorem natDigitsAux_neutral (fuel n : Nat) :
    ∀ c ∈ natDigitsAux fuel n, neutralChar c = true := by
  induction fuel generalizing n with
  | zero => intro c hc; simp [natDigitsAux] at hc
  | succ f ih =>
    intro c hc
    unfold natDigitsAux at hc
    split at hc
    · simp only [List.mem_singleton] at hc
      subst hc; exact digitChar_neutral _
    · simp only [List.mem_append, List.mem_singleton] at hc
      rcases hc with hc | hc
      · exact ih _ _ hc
      · subst hc; exact digitChar_neutral _

theorem renderInt_neutral (n : Int) : ∀ c ∈ renderInt n, neutralChar c = true := by
  unfold renderInt natDigits
  split
  · intro c hc
    simp only [List.mem_cons] at hc
    rcases hc with hc | hc
    · subst hc; decide
    · exact natDigitsAux_neutral _ _ _ hc
  · intro c hc
    exact natDigitsAux_neutral _ _ _ hc

theorem escBody_scan (s : List Char) (b : Int) :
    scanSafe (s.flatMap escChar) (b, true, false) = true ∧
    scanFinal (s.flatMap escChar) (b, true, false) = (b, true, false) := by
  induction s with
  | nil => exact ⟨rfl, rfl⟩
  | cons c tl ih =>
    rw [List.flatMap_cons]
    have hone : scanSafe (escChar c) (b, true, false) = true ∧
        scanFinal (escChar c) (b, true, false) = (b, true, false) := by
      unfold escChar
      split
      · refine ⟨?_, ?_⟩
        · rw [scanSafe_cons]
          simp [breaksAt, stepSt, scanSafe_cons, scanSafe]
        · rw [scanFinal_cons, scanFinal_cons, scanFinal_nil]
          simp [stepSt]
      · rename_i hc
        push_neg at hc
        refine ⟨?_, ?_⟩
        · rw [scanSafe_cons]
          simp [breaksAt, stepSt, hc.1, hc.2, scanSafe]
        · rw [scanFinal_cons, scanFinal_nil]
          simp [stepSt, hc.1, hc.2]
    rw [scanSafe_append, scanFinal_append, hone.1, hone.2]
    simpa using ih

theorem renderStr_scan (s : List Char) (b : Int) :
    scanSafe (renderStr s) (b, false, false) = true ∧
    scanFinal (renderStr s) (b, false, false) = (b, false, false) := by
  unfold renderStr
  have h2 : stepSt (b, false, false) '"' = (b, true, false) := by simp [stepSt]
  have h4 : stepSt (b, true, false) '"' = (b, false, false) := by simp [stepSt]
  have hbody := escBody_scan s b
  refine ⟨?_, ?_⟩
  · rw [scanSafe_cons, h2]
    have : breaksAt (b, false, false) '"' = false := by simp [breaksAt]
    rw [this, scanSafe_append, hbody.1, hbody.2]
    simp [scanSafe_cons, scanSafe, breaksAt]
  · rw [scanFinal_cons, h2, scanFinal_append, hbody.2, scanFinal_cons, h4, scanFinal_nil]

mutual
theorem render_scan : ∀ (v : JsValue) (b : Int), 1 ≤ b →
    scanSafe (render v) (b, false, false) = true ∧
    scanFinal (render v) (b, false, false) = (b, false, false)
  | .undefined, b, _ => scan_block_neutral (by decide) b
  | .null, b, _ => scan_block_neutral (by decide) b
  | .bool true, b, _ => scan_block_neutral (by decide) b
  | .bool false, b, _ => scan_block_neutral (by decide) b
  | .num n, b, _ => scan_block_neutral (renderInt_neutral n) b
  | .str s, b, _ => renderStr_scan s b
  | .arr xs, b, hb => by
    have hx := renderArr_scan xs b hb
    have hopen : breaksAt (b, false, false) '[' = false ∧
        stepSt (b, false, false) '[' = (b, false, false) := scan_one_neutral (by decide) b
    have hclose : breaksAt (b, false, false) ']' = false ∧
        stepSt (b, false, false) ']' = (b, false, false) := scan_one_neutral (by decide) b
    show scanSafe ('[' :: (renderArr xs ++ [']'])) _ = true ∧
      scanFinal ('[' :: (renderArr xs ++ [']'])) _ = _
    refine ⟨?_, ?_⟩
    · rw [scanSafe_cons, hopen.1, hopen.2, scanSafe_append, hx.1, hx.2]
      simp [scanSafe_cons, scanSafe, hclose.1]
    · rw [scanFinal_cons, hopen.2, scanFinal_append, hx.2, scanFinal_cons, hclose.2,
        scanFinal_nil]
  | .obj fs, b, hb => by
    have hf := renderObj_scan fs (b + 1) (by omega)
    have hopen1 : breaksAt (b, false, false) '\x7b' = false := by simp [breaksAt]
    have hopen2 : stepSt (b, false, false) '\x7b' = (b + 1, false, false) := by
      simp [stepSt]
    have hclose1 : breaksAt (b + 1, false, false) '\x7d' = false := by
      simp only [breaksAt]
      simp only [Bool.not_false, Bool.true_and, Bool.and_eq_false_iff]
      right
      simp only [decide_eq_false_iff_not]
      omega
    have hclose2 : stepSt (b + 1, false, false) '\x7d' = (b, false, false) := by
      simp [stepSt]
    show scanSafe ('\x7b' :: (renderObj fs ++ ['\x7d'])) _ = true ∧
      scanFinal ('\x7b' :: (renderObj fs ++ ['\x7d'])) _ = _
    refine ⟨?_, ?_⟩
    · rw [scanSafe_cons, hopen1, hopen2, scanSafe_append, hf.1, hf.2]
      simp [scanSafe_cons, scanSafe, hclose1]
    · rw [scanFinal_cons, hopen2, scanFinal_append, hf.2, scanFinal_cons, hclose2,
        scanFinal_nil]
theorem renderArr_scan : ∀ (xs : JsArr) (b : Int), 1 ≤ b →
    scanSafe (renderArr xs) (b, false, false) = true ∧
    scanFinal (renderArr xs) (b, false, false) = (b, false, false)
  | .nil, b, _ => ⟨rfl, rfl⟩
  | .cons x .nil, b, hb => render_scan x b hb
  | .cons x (.cons y tl), b, hb => by
    have hx := render_scan x b hb
    have hrest := renderArr_scan (.cons y tl) b hb
    have hcomma : breaksAt (b, false, false) ',' = false ∧
        stepSt (b, false, false) ',' = (b, false, false) := scan_one_neutral (by decide) b
    show scanSafe (render x ++ (',' :: renderArr (.cons y tl))) _ = true ∧
      scanFinal (render x ++ (',' :: renderArr (.cons y tl))) _ = _
    refine ⟨?_, ?_⟩
    · rw [scanSafe_append, hx.1, hx.2, scanSafe_cons, hcomma.1, hcomma.2, hrest.1]
      rfl
    · rw [scanFinal_append, hx.2, scanFinal_cons, hcomma.2, hrest.2]
theorem renderObj_scan : ∀ (fs : JsObj) (b : Int), 1 ≤ b →
    scanSafe (renderObj fs) (b, false, false) = true ∧
    scanFinal (renderObj fs) (b, false, false) = (b, false, false)
  | .nil, b, _ => ⟨rfl, rfl⟩
  | .cons k v .nil, b, hb => by
    have hk := renderStr_scan k b
    have hcolon : breaksAt (b, false, false) ':' = false ∧
        stepSt (b, false, false) ':' = (b, false, false) := scan_one_neutral (by decide) b
    have hv := render_scan v b hb
    show scanSafe (renderStr k ++ (':' :: render v)) _ = true ∧
      scanFinal (renderStr k ++ (':' :: render v)) _ = _
    refine ⟨?_, ?_⟩
    · rw [scanSafe_append, hk.1, hk.2, scanSafe_cons, hcolon.1, hcolon.2, hv.1]
      rfl
    · rw [scanFinal_append, hk.2, scanFinal_cons, hcolon.2, hv.2]
  | .cons k v (.cons k2 v2 tl), b, hb => by
    have hk := renderStr_scan k b
    have hcolon : breaksAt (b, false, false) ':' = false ∧
        stepSt (b, false, false) ':' = (b, false, false) := scan_one_neutral (by decide) b
    have hcomma : breaksAt (b, false, false) ',' = false ∧
        stepSt (b, false, false) ',' = (b, false, false) := scan_one_neutral (by decide) b
    have hv := render_scan v b hb
    have hrest := renderObj_scan (.cons k2 v2 tl) b hb
    show scanSafe (renderStr k ++ (':' :: (render v ++ (',' :: renderObj (.cons k2 v2 tl))))) _ = true ∧
      scanFinal (renderStr k ++ (':' :: (render v ++ (',' :: renderObj (.cons k2 v2 tl))))) _ = _
    refine ⟨?_, ?_⟩
    · rw [scanSafe_append, hk.1, hk.2, scanSafe_cons, hcolon.1, hcolon.2, scanSafe_append,
        hv.1, hv.2, scanSafe_cons, hcomma.1, hcomma.2, hrest.1]
      rfl
    · rw [scanFinal_append, hk.2, scanFinal_cons, hcolon.2, scanFinal_append, hv.2,
        scanFinal_cons, hcomma.2, hrest.2]
end

/-- C2.  Balanced extraction: whenever a well-formed JSON object (in
canonical rendering, whose strings may contain braces and escaped
quotes) begins exactly at `startIndex = p.length` and fits in the
5,000,000-character scan window, `extractCompleteObject_` returns
exactly the substring spanning that object, through its matching
closing brace inclusive.  The returned substring is `render` of a JSON
value, hence re-parses as JSON; in particular the scan never terminates
early at a brace inside a string literal. -/
theorem c2_balanced_extraction (fs : JsObj) (p t : List Char)
    (hlen : (render (JsValue.obj fs)).length ≤ 5000000) :
    extractCompleteObject_ (p ++ render (JsValue.obj fs) ++ t) p.length =
      some (render (JsValue.obj fs)) := by
  have hdrop : (p ++ render (JsValue.obj fs) ++ t).drop p.length =
      render (JsValue.obj fs) ++ t := by
    rw [List.append_assoc]
    exact List.drop_left p _
  have hwin : (render (JsValue.obj fs) ++ t).take 5000000 =
      render (JsValue.obj fs) ++ t.take (5000000 - (render (JsValue.obj fs)).length) := by
    rw [List.take_append_eq_append_take]
    congr 1
    exact List.take_of_length_le hlen
  have hshape : render (JsValue.obj fs) = '\x7b' :: (renderObj fs ++ ['\x7d']) := rfl
  have hloop : ∀ t' : List Char,
      ecoLoop (render (JsValue.obj fs) ++ t') p.length (0, false, false) =
        some (p.length + (render (JsValue.obj fs)).length) := by
    intro t'
    rw [hshape]
    have hopen1 : breaksAt (0, false, false) '\x7b' = false := by simp [breaksAt]
    have hopen2 : stepSt (0, false, false) '\x7b' = (1, false, false) := by simp [stepSt]
    have hB := renderObj_scan fs 1 (le_refl 1)
    have hbrk : breaksAt (1, false, false) '\x7d' = true := by simp [breaksAt]
    rw [List.cons_append, ecoLoop_cons, if_neg (by simp [hopen1]), hopen2,
      List.append_assoc, ecoLoop_append_of_safe hB.1, hB.2, List.singleton_append,
      ecoLoop_cons, if_pos (by simp [hbrk])]
    simp only [List.length_cons, List.length_append, List.length_singleton, List.length_nil]
    congr 1
    omega
  unfold extractCompleteObject_
  rw [hdrop, hwin, hloop]
  simp only [Nat.add_sub_cancel_left, List.take_left]

/-- Witness for C2 at the adversarial concrete input from the
specification: the object `{"a":"}{"}` embedded after a prefix; the
extraction returns the full object span, not a truncation at the brace
inside the string literal. -/
theorem c2_witness :
    extractCompleteObject_
        ("var x = ".toList ++
          render (JsValue.obj (JsObj.cons ['a'] (.str ['\x7d', '\x7b']) .nil)) ++
          "; rest".toList) ("var x = ".toList).length =
      some (render (JsValue.obj (JsObj.cons ['a'] (.str ['\x7d', '\x7b']) .nil))) ∧
    render (JsValue.obj (JsObj.cons ['a'] (.str ['\x7d', '\x7b']) .nil)) =
      "\x7b\"a\":\"\x7d\x7b\"\x7d".toList :=
  ⟨c2_balanced_extraction _ _ _ (by decide), by decide⟩

/-- C5.  Unbalanced input yields null: whenever the scan of the window
starting at `startIdx` (including its handling of strings and escapes)
never finds the closing brace that returns the depth to zero — in
particular for unterminated strings and never-closed braces —
`extractCompleteObject_` returns `none`: not a partial substring, and
(being a total function) not an exception. -/
theorem c5_unbalanced_yields_null (str : List Char) (startIdx : Nat)
    (h : scanSafe ((str.drop startIdx).take 5000000) (0, false, false) = true) :
    extractCompleteObject_ str startIdx = none := by
  unfold extractCompleteObject_
  rw [ecoLoop_none_of_safe h]

/-- Witness for C5: a brace opening an object whose string literal is
never terminated (so the closing brace is inside the string), and a
plainly never-closed brace. -/
theorem c5_witness :
    extractCompleteObject_ "x = \x7b\"a\": \"no end\x7d".toList 4 = none ∧
    extractCompleteObject_ "y = \x7b[1,2".toList 4 = none :=
  ⟨c5_unbalanced_yields_null _ 4 (by decide), c5_unbalanced_yields_null _ 4 (by decide)⟩

/-- C4.  Loose-syntax evaluator tiering (`parseJavaScriptObject` in
Parser.js): evaluation of a candidate fails only after exhausting
tier (a) strict JSON parse, tier (b) JSON parse of the cleaned text
(single quotes normalised, trailing commas stripped, comments
stripped), and tier (c) expression evaluation — equivalently, every
candidate accepted by any of the three tiers yields a value; and the
tier (a) value is returned exactly. -/
theorem c4_evaluator_tiering (jsCode : List Char) :
    (isOkE (parseJavaScriptObject jsCode) = true ↔
      (isOkE (jsonParse jsCode) = true ∨ isOkE (jsonParse (cleanJsCode jsCode)) = true ∨
        isOkE (jsEval jsCode) = true)) ∧
    (∀ v, jsonParse jsCode = .ok v → parseJavaScriptObject jsCode = .ok v) := by
  unfold parseJavaScriptObject
  cases h1 : jsonParse jsCode with
  | ok v => simp [isOkE]
  | error e =>
    refine ⟨?_, by intro v hv; exact absurd hv (by simp)⟩
    cases h2 : jsonParse (cleanJsCode jsCode) with
    | ok v2 => simp [isOkE]
    | error e2 => cases h3 : jsEval jsCode <;> simp [isOkE]

/-- Witness for C4: a candidate rejected by tier (a) (single-quoted
key, trailing comma) whose cleaned form is strict JSON, so the
evaluator accepts; the hypothesis of the second conjunct is discharged
on the cleaned text itself. -/
theorem c4_witness :
    parseJavaScriptObject "\x7b\"a\": 1\x7d".toList =
        .ok (.obj (.cons ['a'] (.num 1) .nil)) ∧
    isOkE (jsonParse "\x7b'a': 1,\x7d".toList) = false ∧
    isOkE (parseJavaScriptObject "\x7b'a': 1,\x7d".toList) = true :=
  ⟨(c4_evaluator_tiering _).2 _ (by rfl),
   by rfl,
   (c4_evaluator_tiering _).1.mpr (.inr (.inl (by rfl)))⟩

/-- C7.  End-to-end scenario A: on the specification's concrete source
text, the decode yields exactly one tag record, with type
"Custom HTML" and vendor "Meta (Facebook)", and the independent vendor
scan of the same text yields exactly one vendor hit, with vendor
"Meta (Facebook)", id type "Pixel ID" and id value
"123456789012345". -/
theorem c7_scenario_a :
    ((extractContainerModelFromRawJs_ scenarioAText "GTM-TEST".toList).tags.map
        fun r => (r.type, r.vendor)) =
      [(.str "Custom HTML".toList, "Meta (Facebook)".toList)] ∧
    ((analyzeVendorsFromRawJs_ scenarioAText "GTM-TEST".toList []).map
        fun h => (h.vendor, h.type, h.id)) =
      [("Meta (Facebook)".toList, "Pixel ID".toList, "123456789012345".toList)] :=
  ⟨by rfl, by rfl⟩

/-- C3.  Locator total failure is graceful: `extractContainerModelFromRawJs_`
is a total function (never an exception), and whenever none of the six
locator strategies produces a decoded container, it returns the model
with empty tags, triggers and variables lists. -/
theorem c3_locator_total_failure (rawJs containerId : List Char)
    (h0 : strategy0 rawJs containerId = none)
    (h1 : strategy1 rawJs containerId = none)
    (h2 : strategy2 rawJs containerId = none)
    (h3 : strategy3 rawJs containerId = none)
    (h4 : strategy4 rawJs containerId = none)
    (h5 : strategy5 rawJs containerId = none) :
    extractContainerModelFromRawJs_ rawJs containerId = emptyModel ∧
    (extractContainerModelFromRawJs_ rawJs containerId).tags = [] ∧
    (extractContainerModelFromRawJs_ rawJs containerId).triggers = [] ∧
    (extractContainerModelFromRawJs_ rawJs containerId).vars = [] := by
  have : extractContainerModelFromRawJs_ rawJs containerId = emptyModel := by
    unfold extractContainerModelFromRawJs_
    rw [h0, h1, h2, h3, h4, h5]
  exact ⟨this, by rw [this]; rfl, by rw [this]; rfl, by rw [this]; rfl⟩

/-- Witness for C3: source text with no recognizable structure at all;
every strategy fails and the result is the empty model. -/
theorem c3_witness :
    extractContainerModelFromRawJs_ "hello world, nothing to see".toList "GTM-TEST".toList =
      emptyModel :=
  (c3_locator_total_failure _ _ (by rfl) (by rfl) (by rfl) (by rfl) (by rfl) (by rfl)).1

/-- C8.  Firing-option precedence in `parseTagFiringOption_`: the
once-per-event flag wins (even when the once-per-page flag is also
true), then the once-per-page flag, then "Unlimited". -/
theorem c8_firing_option_precedence (tag : JsValue) :
    ((tag.getField "once_per_event".toList).eqTrue = true →
      parseTagFiringOption_ tag = "Once per event".toList) ∧
    ((tag.getField "once_per_event".toList).eqTrue = false →
      (tag.getField "once_per_load".toList).eqTrue = true →
      parseTagFiringOption_ tag = "Once per page".toList) ∧
    ((tag.getField "once_per_event".toList).eqTrue = false →
      (tag.getField "once_per_load".toList).eqTrue = false →
      parseTagFiringOption_ tag = "Unlimited".toList) := by
  have eqn : parseTagFiringOption_ tag =
      if (tag.getField "once_per_event".toList).eqTrue then "Once per event".toList
      else if (tag.getField "once_per_load".toList).eqTrue then "Once per page".toList
      else "Unlimited".toList := rfl
  refine ⟨fun h => ?_, fun h h2 => ?_, fun h h2 => ?_⟩
  · rw [eqn, h]; rfl
  · rw [eqn, h, h2]; rfl
  · rw [eqn, h, h2]; rfl

/-- Witness for C8: a raw tag with both flags true decodes to
"Once per event", and the other two branches at concrete tags. -/
theorem c8_witness :
    parseTagFiringOption_ (.obj (.cons "once_per_event".toList (.bool true)
        (.cons "once_per_load".toList (.bool true) .nil))) = "Once per event".toList ∧
    parseTagFiringOption_ (.obj (.cons "once_per_load".toList (.bool true) .nil)) =
      "Once per page".toList ∧
    parseTagFiringOption_ (.obj .nil) = "Unlimited".toList :=
  ⟨(c8_firing_option_precedence _).1 (by rfl),
   (c8_firing_option_precedence _).2.1 (by rfl) (by rfl),
   (c8_firing_option_precedence _).2.2 (by rfl) (by rfl)⟩

/-- C9.  Consent extraction exactness: the tagged list
`["list","ad_storage","analytics_storage"]` decodes to exactly those
two tokens; a missing consent field, or any consent value not shaped
as a `"list"`-tagged array, decodes to "None". -/
theorem c9_consent_exactness (tag : JsValue) :
    (tag.getField "consent".toList =
        .arr (.cons (.str "list".toList) (.cons (.str "ad_storage".toList)
          (.cons (.str "analytics_storage".toList) .nil))) →
      parseConsentSettings_ tag = "ad_storage, analytics_storage".toList) ∧
    (tag.getField "consent".toList = .undefined → parseConsentSettings_ tag = "None".toList) ∧
    ((∀ xs : JsArr, tag.getField "consent".toList = .arr xs →
        (xs.toList.getD 0 .undefined).eqStr "list".toList = false) →
      parseConsentSettings_ tag = "None".toList) := by
  unfold parseConsentSettings_
  refine ⟨fun h => ?_, fun h => ?_, fun h => ?_⟩
  · rw [h]; rfl
  · rw [h]; rfl
  · cases hc : tag.getField "consent".toList with
    | arr xs =>
      have := h xs hc
      simp only [JsValue.truthy, JsValue.isArray, Bool.not_true, Bool.not_false, this]
      rw [if_neg (by simp)]
      rfl
    | undefined => rfl
    | null => rfl
    | bool b => cases b <;> rfl
    | num n => simp [JsValue.truthy, JsValue.isArray]
    | str s => simp [JsValue.truthy, JsValue.isArray]
    | obj fs => rfl

/-- Witness for C9: the specification's tagged list, a tag with no
consent field, and a malformed (non-tagged) consent array. -/
theorem c9_witness :
    parseConsentSettings_ (.obj (.cons "consent".toList
        (.arr (.cons (.str "list".toList) (.cons (.str "ad_storage".toList)
          (.cons (.str "analytics_storage".toList) .nil)))) .nil)) =
      "ad_storage, analytics_storage".toList ∧
    parseConsentSettings_ (.obj .nil) = "None".toList ∧
    parseConsentSettings_ (.obj (.cons "consent".toList
        (.arr (.cons (.str "ad_storage".toList) .nil)) .nil)) = "None".toList :=
  ⟨(c9_consent_exactness _).1 (by rfl),
   (c9_consent_exactness _).2.1 (by rfl),
   (c9_consent_exactness _).2.2 (by intro xs h; cases h; rfl)⟩

/-- C10.  Implicit default-value truncation: `defaultValue` is the
(possibly truncated to 100 characters plus "...") string form of
`vtp_defaultValue` exactly when `vtp_setDefaultValue` is the boolean
`true` and `vtp_defaultValue` is defined, and the empty string in
every other case — so it can be non-empty only in the enabled case. -/
theorem c10_default_value_truncation (mac : JsValue) :
    ((mac.getField "vtp_setDefaultValue".toList).eqTrue = true →
      mac.getField "vtp_defaultValue".toList ≠ .undefined →
      extractDefaultValue_ mac =
        (if 100 < (jsToString (mac.getField "vtp_defaultValue".toList)).length then
          (jsToString (mac.getField "vtp_defaultValue".toList)).take 100 ++ "...".toList
        else jsToString (mac.getField "vtp_defaultValue".toList))) ∧
    (((mac.getField "vtp_setDefaultValue".toList).eqTrue = false ∨
        mac.getField "vtp_defaultValue".toList = .undefined) →
      extractDefaultValue_ mac = []) := by
  have eqn : extractDefaultValue_ mac =
      if (mac.getField "vtp_setDefaultValue".toList).eqTrue ∧
          ¬(mac.getField "vtp_defaultValue".toList = .undefined) then
        (if 100 < (jsToString (mac.getField "vtp_defaultValue".toList)).length then
          (jsToString (mac.getField "vtp_defaultValue".toList)).take 100 ++ "...".toList
        else jsToString (mac.getField "vtp_defaultValue".toList))
      else [] := rfl
  refine ⟨fun h1 h2 => ?_, fun h => ?_⟩
  · rw [eqn, if_pos ⟨h1, h2⟩]
  · rcases h with h | h
    · rw [eqn, if_neg fun hc => by rw [h] at hc; simp at hc]
    · rw [eqn, if_neg fun hc => hc.2 h]

/-- Witness for C10: an enabled default longer than 100 characters is
truncated with an ellipsis; a short default is kept whole; a default
with the flag absent yields the empty string. -/
theorem c10_witness :
    extractDefaultValue_ (.obj (.cons "vtp_setDefaultValue".toList (.bool true)
        (.cons "vtp_defaultValue".toList
          (.str (List.replicate 120 'x')) .nil))) =
      List.replicate 100 'x' ++ "...".toList ∧
    extractDefaultValue_ (.obj (.cons "vtp_setDefaultValue".toList (.bool true)
        (.cons "vtp_defaultValue".toList (.str "hi".toList) .nil))) = "hi".toList ∧
    extractDefaultValue_ (.obj (.cons "vtp_defaultValue".toList (.str "hi".toList) .nil)) =
      [] := by
  refine ⟨?_, ?_, ?_⟩
  · have h := (c10_default_value_truncation (.obj (.cons "vtp_setDefaultValue".toList
      (.bool true) (.cons "vtp_defaultValue".toList (.str (List.replicate 120 'x')) .nil)))).1
      (by rfl) (by decide)
    rw [h]
    decide
  · have h := (c10_default_value_truncation (.obj (.cons "vtp_setDefaultValue".toList
      (.bool true) (.cons "vtp_defaultValue".toList (.str "hi".toList) .nil)))).1
      (by rfl) (by decide)
    rw [h]
    rfl
  · exact (c10_default_value_truncation _).2 (.inl (by rfl))

theorem ok_bind {α β : Type} (a : α) (f : α → Except Unit β) :
    (Except.ok a : Except Unit α) >>= f = f a := rfl

theorem idx_out_of_range (ps : JsArr) (i : Int)
    (h : i < 0 ∨ (ps.toList.length : Int) ≤ i) :
    (JsValue.arr ps).idx (.num i) = .undefined := by
  show (if 0 ≤ i ∧ i < ((ps.toList.length : Nat) : Int) then ps.toList.getD i.toNat .undefined
    else .undefined) = .undefined
  rw [if_neg (by omega)]

/-- C6.  Untrusted predicate indices: a rule whose `add` and `unless`
lists reference only out-of-range predicate indices does not make
trigger synthesis throw; every unresolved reference is skipped, the
`conditionsSummary` falls back to "All Pages" (no resolvable positive
condition) and the exceptions summary to "None". -/
theorem c6_untrusted_predicate_indices (ps : JsArr) (rule : JsValue)
    (containerId : List Char) (ents : JsValue) (addIds unlessIds : JsArr)
    (hr : rule.isNullish = false)
    (hadd : rule.getField "add".toList = .arr addIds)
    (hout : ∀ v ∈ addIds.toList, ∃ i : Int, v = .num i ∧
      (i < 0 ∨ (ps.toList.length : Int) ≤ i))
    (hunl : rule.getField "unless".toList = .arr unlessIds)
    (huout : ∀ v ∈ unlessIds.toList, ∃ i : Int, v = .num i ∧
      (i < 0 ∨ (ps.toList.length : Int) ≤ i)) :
    ∃ tr : TriggerRow,
      parseGtmTriggers_ (.arr ps) (.arr (.cons rule .nil)) containerId ents = .ok [tr] ∧
      tr.conditionsSummary = "All Pages".toList ∧
      tr.exceptions = "None".toList := by
  have hidx : ∀ v ∈ addIds.toList, (JsValue.arr ps).idx v = .undefined := by
    intro v hv
    obtain ⟨i, rfl, hrange⟩ := hout v hv
    exact idx_out_of_range ps i hrange
  have huidx : ∀ v ∈ unlessIds.toList, (JsValue.arr ps).idx v = .undefined := by
    intro v hv
    obtain ⟨i, rfl, hrange⟩ := huout v hv
    exact idx_out_of_range ps i hrange
  have hres : resolvedConditions addIds.toList (.arr ps) = [] := by
    rw [resolvedConditions, List.filterMap_eq_nil_iff]
    intro v hv
    simp only [hidx v hv]
    rfl
  have hures : resolvedConditions unlessIds.toList (.arr ps) = [] := by
    rw [resolvedConditions, List.filterMap_eq_nil_iff]
    intro v hv
    simp only [huidx v hv]
    rfl
  have hsum : summarizeTriggerConditions_ rule (.arr ps) = .ok "All Pages".toList := by
    unfold summarizeTriggerConditions_
    rw [hadd]
    show Except.ok (if (List.intercalate " AND ".toList
        ((resolvedConditions addIds.toList (.arr ps)).take 3)).isEmpty then
        "All Pages".toList
      else List.intercalate " AND ".toList
        ((resolvedConditions addIds.toList (.arr ps)).take 3)) = Except.ok "All Pages".toList
    rw [hres]
    rfl
  have hexc : extractExceptionConditions_ rule (.arr ps) = "None".toList := by
    unfold extractExceptionConditions_
    rw [hunl]
    show (if 0 < (resolvedConditions unlessIds.toList (.arr ps)).length then
        List.intercalate "; ".toList (resolvedConditions unlessIds.toList (.arr ps))
      else "None".toList) = "None".toList
    rw [hures]
    rfl
  have hone : ∃ row : TriggerRow, parseGtmTriggerOne (.arr ps) rule 0 containerId = .ok row ∧
      row.conditionsSummary = "All Pages".toList ∧ row.exceptions = "None".toList := by
    unfold parseGtmTriggerOne
    simp only [hr, Bool.false_eq_true, if_false, hsum, ok_bind]
    exact ⟨_, rfl, rfl, hexc⟩
  obtain ⟨row, hrow, hc, he⟩ := hone
  refine ⟨row, ?_, hc, he⟩
  show mapIdxM (fun r i => parseGtmTriggerOne (.arr ps) r i containerId) [rule] 0 = .ok [row]
  unfold mapIdxM
  rw [hrow, ok_bind]
  rfl

/-- Witness for C6: an empty predicates array with a rule referencing
indices 0, 5 (positive) and 3 (unless); synthesis succeeds with
"All Pages" and "None". -/
theorem c6_witness :
    ∃ tr : TriggerRow,
      parseGtmTriggers_ (.arr .nil)
          (.arr (.cons (.obj (.cons "add".toList (.arr (.cons (.num 0) (.cons (.num 5) .nil)))
            (.cons "unless".toList (.arr (.cons (.num 3) .nil)) .nil))) .nil))
          "GTM-TEST".toList (.obj .nil) = .ok [tr] ∧
      tr.conditionsSummary = "All Pages".toList ∧
      tr.exceptions = "None".toList :=
  c6_untrusted_predicate_indices .nil _ _ _ _ _ (by rfl) (by rfl)
    (by
      intro v hv
      simp [JsArr.toList] at hv
      rcases hv with rfl | rfl
      · exact ⟨0, rfl, by decide⟩
      · exact ⟨5, rfl, by decide⟩)
    (by rfl)
    (by
      intro v hv
      simp [JsArr.toList] at hv
      subst hv
      exact ⟨3, rfl, by decide⟩)

/-! Helper lemmas for the per-record decode analysis (claim C1). -/

theorem pure_bind_except {α β : Type} (a : α) (f : α → Except Unit β) :
    (pure a : Except Unit α) >>= f = f a := rfl

theorem exists_ok_ite {α : Type} (c : Prop) [Decidable c] {e1 e2 : Except Unit α}
    (h1 : ∃ v, e1 = .ok v) (h2 : ∃ v, e2 = .ok v) :
    ∃ v, (if c then e1 else e2) = .ok v := by
  by_cases hc : c
  · rw [if_pos hc]; exact h1
  · rw [if_neg hc]; exact h2

theorem bind_ok_of_ok {α β : Type} {e : Except Unit α} {f : α → Except Unit β}
    (he : ∃ a, e = .ok a) (hf : ∀ a, ∃ b, f a = .ok b) : ∃ b, (e >>= f) = .ok b := by
  obtain ⟨a, ha⟩ := he
  rw [ha, ok_bind]
  exact hf a

theorem or_str_of_strOrFalsy {v : JsValue} (h : strOrFalsy v = true) (t : List Char) :
    ∃ s, v.or (.str t) = .str s := by
  cases v with
  | str s =>
    exact if htr : (JsValue.str s).truthy = true then
      ⟨s, by unfold JsValue.or; rw [if_pos htr]⟩
    else ⟨t, by unfold JsValue.or; rw [if_neg htr]⟩
  | undefined => exact ⟨t, rfl⟩
  | null => exact ⟨t, rfl⟩
  | bool b =>
    cases b with
    | false => exact ⟨t, rfl⟩
    | true => simp [strOrFalsy, JsValue.typeofString, JsValue.truthy] at h
  | num n =>
    have hz : (JsValue.num n).truthy = false := by
      unfold strOrFalsy JsValue.typeofString at h
      simpa using h
    exact ⟨t, by unfold JsValue.or; rw [hz]; rfl⟩
  | arr xs => simp [strOrFalsy, JsValue.typeofString, JsValue.truthy] at h
  | obj fs => simp [strOrFalsy, JsValue.typeofString, JsValue.truthy] at h

theorem or_or_str_of_strOrFalsy {a b : JsValue} (ha : strOrFalsy a = true)
    (hb : strOrFalsy b = true) (t : List Char) : ∃ s, (a.or b).or (.str t) = .str s := by
  by_cases htr : a.truthy = true
  · have h1 : a.or b = a := by unfold JsValue.or; rw [if_pos htr]
    rw [h1]
    exact or_str_of_strOrFalsy ha t
  · have h1 : a.or b = b := by unfold JsValue.or; rw [if_neg htr]
    rw [h1]
    exact or_str_of_strOrFalsy hb t

theorem identifyTagType_ok (tag : JsValue)
    (hf : strOrFalsy (tag.getField "function".toList) = true)
    (htr : strOrFalsy (tag.getField "vtp_trackingId".toList) = true)
    (hme : strOrFalsy (tag.getField "vtp_measurementId".toList) = true) :
    ∃ v, identifyTagType_ tag = .ok v := by
  obtain ⟨fs, hfs⟩ := or_str_of_strOrFalsy hf []
  obtain ⟨vs, hvs⟩ := or_or_str_of_strOrFalsy htr hme []
  unfold identifyTagType_
  rw [hfs, hvs]
  simp only [jsIncludesE, jsStartsWithE, ok_bind, pure_bind_except]
  repeat' first
  | exact ⟨_, rfl⟩
  | apply exists_ok_ite

theorem identifyTagVendor_ok (tag : JsValue)
    (hf : strOrFalsy (tag.getField "function".toList) = true)
    (hh : strOrFalsy (tag.getField "vtp_html".toList) = true) :
    ∃ v, identifyTagVendor_ tag = .ok v := by
  obtain ⟨fs, hfs⟩ := or_str_of_strOrFalsy hf []
  obtain ⟨hs, hhs⟩ := or_str_of_strOrFalsy hh []
  unfold identifyTagVendor_
  rw [hfs, hhs]
  simp only [jsIncludesE, ok_bind, pure_bind_except]
  repeat' first
  | exact ⟨_, rfl⟩
  | apply exists_ok_ite

theorem entityNameLookup_ok (n e : JsValue) (i : Nat) (he : entitiesOk e = true) :
    ∃ w, entityNameLookup n e i = .ok w := by
  unfold entityNameLookup
  split
  · rename_i hcond
    have hin : ∃ b, jsInE (natDigits i) e = .ok b := by
      unfold entitiesOk at he
      rw [Bool.or_eq_true] at he
      rcases he with he | he
      · rw [Bool.not_eq_true'] at he
        exact absurd hcond.2 (by simp [he])
      · cases e with
        | obj fs => exact ⟨_, rfl⟩
        | arr xs => exact ⟨_, rfl⟩
        | undefined => simp at he
        | null => simp at he
        | bool b => simp at he
        | num m => simp at he
        | str s => simp at he
    obtain ⟨b, hb⟩ := hin
    rw [hb, ok_bind]
    repeat' split
    all_goals exact ⟨_, rfl⟩
  · exact ⟨_, rfl⟩

theorem parseGtmTag_ok (tag : JsValue) (i : Nat) (cid : List Char) (ents : JsValue)
    (ht : tameTag tag = true) (he : entitiesOk ents = true) :
    ∃ row, parseGtmTag_ tag i cid ents = .ok row := by
  unfold tameTag at ht
  simp only [Bool.and_eq_true] at ht
  obtain ⟨⟨⟨⟨hn, hf⟩, htr⟩, hme⟩, hh⟩ := ht
  rw [Bool.not_eq_true'] at hn
  unfold parseGtmTag_
  simp only [hn, Bool.false_eq_true, if_false]
  refine bind_ok_of_ok (entityNameLookup_ok _ _ _ he) fun w => ?_
  refine bind_ok_of_ok (identifyTagType_ok tag hf htr hme) fun ty => ?_
  refine bind_ok_of_ok (identifyTagVendor_ok tag hf hh) fun vd => ?_
  exact ⟨_, rfl⟩

theorem summarizeTriggerConditions_ok (rule : JsValue) (ps : JsValue)
    (h : tameRule rule = true) : ∃ s, summarizeTriggerConditions_ rule ps = .ok s := by
  unfold tameRule at h
  simp only [Bool.and_eq_true, Bool.or_eq_true] at h
  obtain ⟨hn, hadd⟩ := h
  unfold summarizeTriggerConditions_
  by_cases htruthy : (rule.getField "add".toList).truthy = true
  · have harr : (rule.getField "add".toList).isArray = true := by
      rcases hadd with hadd | hadd
      · rw [Bool.not_eq_true'] at hadd
        rw [hadd] at htruthy
        exact absurd htruthy (by simp)
      · exact hadd
    cases hc : rule.getField "add".toList with
    | arr ids => exact ⟨_, rfl⟩
    | undefined => rw [hc] at harr; simp [JsValue.isArray] at harr
    | null => rw [hc] at harr; simp [JsValue.isArray] at harr
    | bool b => rw [hc] at harr; simp [JsValue.isArray] at harr
    | num m => rw [hc] at harr; simp [JsValue.isArray] at harr
    | str s => rw [hc] at harr; simp [JsValue.isArray] at harr
    | obj fs => rw [hc] at harr; simp [JsValue.isArray] at harr
  · rw [if_neg htruthy]
    exact ⟨_, rfl⟩

theorem parseGtmTriggerOne_ok (ps rule : JsValue) (ridx : Nat) (cid : List Char)
    (h : tameRule rule = true) : ∃ row, parseGtmTriggerOne ps rule ridx cid = .ok row := by
  have hn : rule.isNullish = false := by
    unfold tameRule at h
    simp only [Bool.and_eq_true, Bool.not_eq_true'] at h
    exact h.1
  unfold parseGtmTriggerOne
  simp only [hn, Bool.false_eq_true, if_false]
  exact bind_ok_of_ok (summarizeTriggerConditions_ok rule ps h) fun c => ⟨_, rfl⟩

theorem parseGtmVariable_ok (mac : JsValue) (i : Nat) (cid : List Char) (ents : JsValue)
    (h : mac.isNullish = false) : ∃ row, parseGtmVariable_ mac i cid ents = .ok row := by
  unfold parseGtmVariable_
  simp only [h, Bool.false_eq_true, if_false]
  exact ⟨_, rfl⟩

theorem mapIdxM_ok {β : Type} (f : JsValue → Nat → Except Unit β) :
    ∀ l : List JsValue, (∀ x ∈ l, ∀ i, ∃ y, f x i = .ok y) →
      ∀ i0, ∃ out, mapIdxM f l i0 = .ok out ∧ out.length = l.length := by
  intro l
  induction l with
  | nil => exact fun _ _ => ⟨[], rfl, rfl⟩
  | cons x tl ih =>
    intro h i0
    obtain ⟨y, hy⟩ := h x (by simp) i0
    obtain ⟨out, hout, hlen⟩ := ih (fun a ha i => h a (by simp [ha]) i) (i0 + 1)
    refine ⟨y :: out, ?_, by simp [hlen]⟩
    unfold mapIdxM
    rw [hy, ok_bind, hout, ok_bind]

theorem effEntities_ok {data : JsValue}
    (he : entitiesOk (data.getField "entities".toList) = true) :
    entitiesOk (effEntities data) = true := by
  unfold effEntities JsValue.or
  split
  · exact he
  · rfl

theorem decodeTags_ok (data : JsValue) (cid : List Char) (ts : JsArr)
    (htags : data.getField "tags".toList = .arr ts)
    (htame : ∀ t ∈ ts.toList, tameTag t = true)
    (hent : entitiesOk (data.getField "entities".toList) = true) :
    ∃ rows, decodeTags data cid = .ok rows ∧ rows.length = ts.toList.length := by
  unfold decodeTags
  rw [htags, if_pos ⟨rfl, rfl⟩]
  show ∃ rows, mapIdxM (fun t i => parseGtmTag_ t i cid (effEntities data)) ts.toList 0 =
    .ok rows ∧ rows.length = ts.toList.length
  exact mapIdxM_ok _ _ (fun t ht i => parseGtmTag_ok t i cid _ (htame t ht)
    (effEntities_ok hent)) 0

theorem decodeTriggers_ok (data : JsValue) (cid : List Char) (rs : JsArr) (pv : JsValue)
    (hpred : data.getField "predicates".toList = pv) (hpv : pv.truthy = true)
    (hrules : data.getField "rules".toList = .arr rs)
    (hrule : ∀ r ∈ rs.toList, tameRule r = true) :
    ∃ rows, decodeTriggers data cid = .ok rows ∧ rows.length = rs.toList.length := by
  unfold decodeTriggers
  rw [hpred, hrules, if_pos ⟨hpv, rfl⟩]
  unfold parseGtmTriggers_
  show ∃ rows, mapIdxM (fun r i => parseGtmTriggerOne pv r i cid) rs.toList 0 =
    .ok rows ∧ rows.length = rs.toList.length
  exact mapIdxM_ok _ _ (fun r hr i => parseGtmTriggerOne_ok pv r i cid (hrule r hr)) 0

theorem decodeVariables_ok (data : JsValue) (cid : List Char) (ms : JsArr)
    (hmacs : data.getField "macros".toList = .arr ms)
    (hok : ∀ m ∈ ms.toList, m.isNullish = false) :
    ∃ rows, decodeVariables data cid = .ok rows ∧ rows.length = ms.toList.length := by
  unfold decodeVariables
  rw [hmacs, if_pos ⟨rfl, rfl⟩]
  show ∃ rows, mapIdxM (fun m i => parseGtmVariable_ m i cid (effEntities data)) ms.toList 0 =
    .ok rows ∧ rows.length = ms.toList.length
  exact mapIdxM_ok _ _ (fun m hm i => parseGtmVariable_ok m i cid _ (hok m hm)) 0

/-- Counterexample to C1 as stated: a container document whose `tags`
array has length two but whose first raw tag is `null` (a malformed
record).  Per-record decode is not isolated — the TypeError thrown on
the null record aborts the whole decode (`.error`), so no records are
emitted at all, instead of two records with the malformed one degraded
to a placeholder. -/
theorem c1_counterexample :
    parseContainerData_
        (.obj (.cons "tags".toList (.arr (.cons .null (.cons (.obj .nil) .nil)))
          (.cons "macros".toList (.arr (.cons (.obj .nil) .nil))
          (.cons "predicates".toList (.arr .nil)
          (.cons "rules".toList (.arr .nil) .nil))))) "GTM-TEST".toList = .error () ∧
    (JsValue.obj (.cons "tags".toList (.arr (.cons .null (.cons (.obj .nil) .nil)))
        (.cons "macros".toList (.arr (.cons (.obj .nil) .nil))
        (.cons "predicates".toList (.arr .nil)
        (.cons "rules".toList (.arr .nil) .nil))))).getField "tags".toList =
      .arr (.cons .null (.cons (.obj .nil) .nil)) :=
  ⟨by rfl, by rfl⟩

/-- C1 (amended).  Per-record decode is not isolated by a per-record
try/catch; what holds is: a malformed record that does not make the
per-record decoder throw a TypeError (any non-nullish tag whose
function/vtp fields fed to string methods are strings or absent, any
non-nullish rule whose `add` field is absent or an array, any
non-nullish macro) degrades to a best-effort record, and then the
number of emitted tag records equals the length of the source `tags`
array, the number of trigger records the length of `rules`, and the
number of variable records the length of `macros`.  A record that does
throw (e.g. `null`, see the counterexample) aborts the whole decode,
which the enclosing locator strategy catches. -/
theorem c1_amended (data : JsValue) (containerId : List Char) (ts ms rs : JsArr)
    (pv : JsValue)
    (hnul : data.isNullish = false)
    (htags : data.getField "tags".toList = .arr ts)
    (hmacs : data.getField "macros".toList = .arr ms)
    (hpred : data.getField "predicates".toList = pv) (hpv : pv.truthy = true)
    (hrules : data.getField "rules".toList = .arr rs)
    (hent : entitiesOk (data.getField "entities".toList) = true)
    (htame : ∀ t ∈ ts.toList, tameTag t = true)
    (hmacok : ∀ m ∈ ms.toList, m.isNullish = false)
    (hruleok : ∀ r ∈ rs.toList, tameRule r = true) :
    ∃ m : Model, parseContainerData_ data containerId = .ok m ∧
      m.tags.length = ts.toList.length ∧
      m.triggers.length = rs.toList.length ∧
      m.vars.length = ms.toList.length := by
  obtain ⟨tr, htr, hlt⟩ := decodeTags_ok data containerId ts htags htame hent
  obtain ⟨gr, hgr, hlg⟩ := decodeTriggers_ok data containerId rs pv hpred hpv hrules hruleok
  obtain ⟨vr, hvr, hlv⟩ := decodeVariables_ok data containerId ms hmacs hmacok
  unfold parseContainerData_
  simp only [hnul, Bool.false_eq_true, if_false, htr, hgr, hvr, ok_bind]
  exact ⟨_, rfl, hlt, hlg, hlv⟩

/-- Witness for C1 (amended): a document with one well-shaped tag, one
macro, one rule and an empty predicates array decodes to exactly one
tag, one trigger and one variable record. -/
theorem c1_witness :
    ∃ m : Model, parseContainerData_
        (.obj (.cons "tags".toList
            (.arr (.cons (.obj (.cons "function".toList (.str "__html".toList) .nil)) .nil))
          (.cons "macros".toList
            (.arr (.cons (.obj (.cons "function".toList (.str "__v".toList) .nil)) .nil))
          (.cons "predicates".toList (.arr .nil)
          (.cons "rules".toList
            (.arr (.cons (.obj (.cons "add".toList (.arr (.cons (.num 0) .nil)) .nil)) .nil))
            .nil))))) "GTM-TEST".toList = .ok m ∧
      m.tags.length = 1 ∧ m.triggers.length = 1 ∧ m.vars.length = 1 := by
  obtain ⟨m, hm, h1, h2, h3⟩ := c1_amended
    (.obj (.cons "tags".toList
        (.arr (.cons (.obj (.cons "function".toList (.str "__html".toList) .nil)) .nil))
      (.cons "macros".toList
        (.arr (.cons (.obj (.cons "function".toList (.str "__v".toList) .nil)) .nil))
      (.cons "predicates".toList (.arr .nil)
      (.cons "rules".toList
        (.arr (.cons (.obj (.cons "add".toList (.arr (.cons (.num 0) .nil)) .nil)) .nil))
        .nil)))))
    "GTM-TEST".toList
    (.cons (.obj (.cons "function".toList (.str "__html".toList) .nil)) .nil)
    (.cons (.obj (.cons "function".toList (.str "__v".toList) .nil)) .nil)
    (.cons (.obj (.cons "add".toList (.arr (.cons (.num 0) .nil)) .nil)) .nil)
    (.arr .nil)
    (by rfl) (by rfl) (by rfl) (by rfl) (by rfl) (by rfl) (by rfl)
    (by decide) (by decide) (by decide)
  exact ⟨m, hm, h1, h2, h3⟩

end Gtm
